import Mathlib

/-!
Verification of the Hyli DeFi AMM ledger and exchange engine.

The repository hosts an automated market maker: per-user token balances and
constant-product liquidity pools with mint / add-liquidity / remove-liquidity /
swap operations (0.3% fee, slippage protection).  The frontend
(`src/front/src/App.tsx`) carries an executable simulation of the pool
mathematics (`getPairKey`, `calculateSwapOutputFromPool`, balance-key
construction, `handlePoolSwap`); those functions are embedded here directly
from that source.  The on-chain Rust contract (`contracts/contract1`) ships
only its manifest in this tree — its `lib.rs` is absent — so the engine's
state-transition semantics are modelled from the specification (sections 3, 4
and 7 of the spec document), which was written from that contract:
`u128` amounts become non-negative integers, map keys are the concatenated
strings the spec describes, arithmetic that would drive a tracked amount
negative fails closed as the spec's error-handling section mandates, and a
failing operation returns the input state unchanged.
-/

namespace HyliAmm

/-! ## String ordering (JS `Array.prototype.sort` on two strings) -/

/-- Lexicographic comparison of character lists by code point, mirroring the
JavaScript default string comparison used by `[tokenA, tokenB].sort()` in
`App.tsx` (identical to UTF-16 order on the ASCII token symbols the app uses). -/
def charListLt : List Char → List Char → Bool
  | [], [] => false
  | [], _ :: _ => true
  | _ :: _, [] => false
  | a :: as, b :: bs =>
    if a.toNat < b.toNat then true
    else if b.toNat < a.toNat then false
    else charListLt as bs

/-- String comparison: `strLt a b = true` iff `a` sorts strictly before `b`. -/
def strLt (a b : String) : Bool := charListLt a.data b.data

/-! ## Pair keys and balance keys (from `src/front/src/App.tsx` and the spec) -/

/-- Canonical pair key, from `getPairKey` in `App.tsx` (and the identical
`get_pair_key` helper the architecture document shows for the contract):
the two token symbols are sorted lexicographically and joined with `"_"`. -/
def getPairKey (tokenA tokenB : String) : String :=
  if strLt tokenB tokenA then tokenB ++ "_" ++ tokenA else tokenA ++ "_" ++ tokenB

/-- Balance-ledger key, from `App.tsx` (for example
`federated user key ++ "_" ++ token` in the balance grid) and the architecture
document's "user_token" format: plain concatenation with a `"_"` separator. -/
def balanceKey (user token : String) : String := user ++ "_" ++ token

/-- Liquidity-position key, from the architecture document's
"user_liquidity_tokenA_tokenB" format with the pair canonically ordered. -/
def liquidityKey (user tokenA tokenB : String) : String :=
  user ++ "_liquidity_" ++ getPairKey tokenA tokenB

/-! ## Integer square root helper -/

/-- Largest `j ≤ k` with `j * j ≤ n` (0 when there is none). -/
def isqrtGo (n : ℕ) : ℕ → ℕ
  | 0 => 0
  | k + 1 => if (k + 1) * (k + 1) ≤ n then k + 1 else isqrtGo n k

/-- Modelled from the spec: the integer square root shared helper used by
AddLiquidity's new-pool case; the contract source holding it is absent from
this tree.  The spec requires `floor(sqrt(n))` exactly for all non-negative
integers, which this linear search realises (proved equal to `Nat.sqrt`
below). -/
def integerSqrt (n : ℕ) : ℕ := isqrtGo n n

/-! ## Engine data model (modelled from the spec) -/

/-- Modelled from the spec: one liquidity pool per unordered token pair —
the two symbols in canonical (lexicographic) order, the two reserves, and the
total of outstanding LP shares.  The Rust `LiquidityPool` struct (u128 fields)
is absent from this tree; amounts are embedded as integers. -/
structure LiquidityPool where
  token_a : String
  token_b : String
  reserve_a : ℤ
  reserve_b : ℤ
  total_liquidity : ℤ
deriving DecidableEq

/-- Modelled from the spec: the engine owns two maps — user token balances
(which also hold LP shares as a virtual token) keyed by concatenated strings,
and pools keyed by the canonical pair key.  The Rust `AmmContract` struct is
absent from this tree. -/
structure AmmState where
  user_balances : String → ℤ
  pools : String → Option LiquidityPool

/-- Modelled from the spec: the closed error taxonomy of the engine. -/
inductive AmmError
  | insufficientBalance
  | poolNotFound
  | slippageExceeded
deriving DecidableEq

/-- The empty engine state: no balances, no pools. -/
def emptyState : AmmState := ⟨fun _ => 0, fun _ => none⟩

/-- Pointwise update of the balance map. -/
def setBal (b : String → ℤ) (k : String) (v : ℤ) : String → ℤ :=
  fun k' => if k' = k then v else b k'

/-- Pointwise update of the pool map. -/
def setPool (ps : String → Option LiquidityPool) (k : String) (p : LiquidityPool) :
    String → Option LiquidityPool :=
  fun k' => if k' = k then some p else ps k'

/-- Modelled from the spec: a debit is preceded by a sufficiency check and
fails (returning `none`) rather than driving the tracked amount negative. -/
def debit (b : String → ℤ) (k : String) (amount : ℤ) : Option (String → ℤ) :=
  if amount ≤ b k then some (setBal b k (b k - amount)) else none

/-- Credit of an amount to a balance key (created implicitly at 0). -/
def credit (b : String → ℤ) (k : String) (amount : ℤ) : String → ℤ :=
  setBal b k (b k + amount)

/-! ## Engine operations (modelled from the spec, section 4) -/

/-- Modelled from the spec: MintTokens credits the balance unconditionally
(development faucet semantics); the amount is a non-negative integer. -/
def mintTokens (s : AmmState) (user token : String) (amount : ℕ) :
    AmmState × Option AmmError :=
  ({ s with user_balances := credit s.user_balances (balanceKey user token) (amount : ℤ) },
   none)

/-- Modelled from the spec: GetUserBalance is read-only and returns 0 for an
absent key. -/
def getUserBalance (s : AmmState) (user token : String) : ℤ :=
  s.user_balances (balanceKey user token)

/-- Modelled from the spec: GetReserves looks the pool up under the canonical
pair key and returns zeros when it does not exist. -/
def getReserves (s : AmmState) (tokenA tokenB : String) : ℤ × ℤ × ℤ :=
  match s.pools (getPairKey tokenA tokenB) with
  | some p => (p.reserve_a, p.reserve_b, p.total_liquidity)
  | none => (0, 0, 0)

/-- Modelled from the spec: AddLiquidity.  Preconditions: both amounts
positive and both balances sufficient, any violation reported as
`insufficientBalance` (the only error the spec defines for this operation).
A pool with both reserves zero is (re-)bootstrapped with
`floor(sqrt(amount_a * amount_b))` minted shares and any ratio accepted; an
existing pool mints `floor(amount_a * total_liquidity / reserve_a)` shares,
where `reserve_a` is the reserve of the caller's first token — the engine
performs no validation of `amount_b` against the pool ratio.  Reserves are
matched to the caller's argument order by comparing token symbols, as the
spec prescribes for pool access. -/
def addLiquidity (s : AmmState) (user tokenA tokenB : String) (amountA amountB : ℕ) :
    AmmState × Option AmmError :=
  if amountA = 0 ∨ amountB = 0 then (s, some .insufficientBalance) else
  match debit s.user_balances (balanceKey user tokenA) (amountA : ℤ) with
  | none => (s, some .insufficientBalance)
  | some b1 =>
    match debit b1 (balanceKey user tokenB) (amountB : ℤ) with
    | none => (s, some .insufficientBalance)
    | some b2 =>
      let key := getPairKey tokenA tokenB
      let pool : LiquidityPool :=
        match s.pools key with
        | some p => p
        | none =>
          if strLt tokenB tokenA
          then ⟨tokenB, tokenA, 0, 0, 0⟩
          else ⟨tokenA, tokenB, 0, 0, 0⟩
      let reserveA : ℤ := if pool.token_a = tokenA then pool.reserve_a else pool.reserve_b
      let minted : ℤ :=
        if pool.reserve_a = 0 ∧ pool.reserve_b = 0
        then (integerSqrt (amountA * amountB) : ℤ)
        else (amountA : ℤ) * pool.total_liquidity / reserveA
      let pool' : LiquidityPool :=
        if pool.token_a = tokenA then
          { pool with reserve_a := pool.reserve_a + (amountA : ℤ),
                      reserve_b := pool.reserve_b + (amountB : ℤ),
                      total_liquidity := pool.total_liquidity + minted }
        else
          { pool with reserve_a := pool.reserve_a + (amountB : ℤ),
                      reserve_b := pool.reserve_b + (amountA : ℤ),
                      total_liquidity := pool.total_liquidity + minted }
      ({ user_balances := credit b2 (liquidityKey user tokenA tokenB) minted,
         pools := setPool s.pools key pool' }, none)

/-- Modelled from the spec: RemoveLiquidity.  Preconditions: the pool exists
with positive total liquidity (else `poolNotFound`) and the user's LP-share
balance covers the burn (else `insufficientBalance`).  It pays out
`floor(liquidity_amount * reserve / total_liquidity)` of each token, credited
to the balances of the pool's own (canonically ordered) tokens.  Following the
spec's error-handling section, a payout that would drive a reserve or the
total liquidity negative fails closed with `insufficientBalance` before any
mutation. -/
def removeLiquidity (s : AmmState) (user tokenA tokenB : String) (liquidityAmount : ℕ) :
    AmmState × Option AmmError :=
  let key := getPairKey tokenA tokenB
  match s.pools key with
  | none => (s, some .poolNotFound)
  | some pool =>
    if pool.total_liquidity ≤ 0 then (s, some .poolNotFound) else
    match debit s.user_balances (liquidityKey user tokenA tokenB) (liquidityAmount : ℤ) with
    | none => (s, some .insufficientBalance)
    | some b1 =>
      let amountA : ℤ := (liquidityAmount : ℤ) * pool.reserve_a / pool.total_liquidity
      let amountB : ℤ := (liquidityAmount : ℤ) * pool.reserve_b / pool.total_liquidity
      if amountA ≤ pool.reserve_a ∧ amountB ≤ pool.reserve_b ∧
          (liquidityAmount : ℤ) ≤ pool.total_liquidity then
        let pool' : LiquidityPool :=
          { pool with reserve_a := pool.reserve_a - amountA,
                      reserve_b := pool.reserve_b - amountB,
                      total_liquidity := pool.total_liquidity - (liquidityAmount : ℤ) }
        ({ user_balances :=
             credit (credit b1 (balanceKey user pool.token_a) amountA)
               (balanceKey user pool.token_b) amountB,
           pools := setPool s.pools key pool' }, none)
      else (s, some .insufficientBalance)

/-- Modelled from the spec: SwapExactTokensForTokens.  Preconditions: the pool
exists with non-zero reserves (a drained pool counts as uninitialized, hence
`poolNotFound`) and the input balance is sufficient.  The constant-product
output with the 0.3% fee is
`floor(amount_in * 997 * reserve_out / (reserve_in * 1000 + amount_in * 997))`,
with reserves assigned by matching the pool's tokens to `token_in`; an output
below `min_amount_out` fails with `slippageExceeded`.  Following the spec's
error-handling section, an output exceeding the held reserve would fail closed
with `insufficientBalance` before any mutation (unreachable for positive
reserves). -/
def swapExactTokensForTokens (s : AmmState) (user tokenIn tokenOut : String)
    (amountIn minAmountOut : ℕ) : AmmState × Option AmmError :=
  let key := getPairKey tokenIn tokenOut
  match s.pools key with
  | none => (s, some .poolNotFound)
  | some pool =>
    if pool.reserve_a = 0 ∨ pool.reserve_b = 0 then (s, some .poolNotFound) else
    match debit s.user_balances (balanceKey user tokenIn) (amountIn : ℤ) with
    | none => (s, some .insufficientBalance)
    | some b1 =>
      let reserveIn : ℤ := if pool.token_a = tokenIn then pool.reserve_a else pool.reserve_b
      let reserveOut : ℤ := if pool.token_a = tokenIn then pool.reserve_b else pool.reserve_a
      let amountInWithFee : ℤ := (amountIn : ℤ) * 997
      let amountOut : ℤ := amountInWithFee * reserveOut / (reserveIn * 1000 + amountInWithFee)
      if amountOut < (minAmountOut : ℤ) then (s, some .slippageExceeded) else
      if amountOut ≤ reserveOut then
        let pool' : LiquidityPool :=
          if pool.token_a = tokenIn then
            { pool with reserve_a := pool.reserve_a + (amountIn : ℤ),
                        reserve_b := pool.reserve_b - amountOut }
          else
            { pool with reserve_a := pool.reserve_a - amountOut,
                        reserve_b := pool.reserve_b + (amountIn : ℤ) }
        ({ user_balances := credit b1 (balanceKey user tokenOut) amountOut,
           pools := setPool s.pools key pool' }, none)
      else (s, some .insufficientBalance)

/-! ## Actions and execution -/

/-- Modelled from the spec: the tagged action value the host feeds the engine
(the read-only queries GetUserBalance and GetReserves do not transition
state). -/
inductive AmmAction
  | mintTokens (user token : String) (amount : ℕ)
  | addLiquidity (user tokenA tokenB : String) (amountA amountB : ℕ)
  | removeLiquidity (user tokenA tokenB : String) (liquidityAmount : ℕ)
  | swapExactTokensForTokens (user tokenIn tokenOut : String) (amountIn minAmountOut : ℕ)

/-- Modelled from the spec: one atomic engine call — the new state together
with `none` on success or the original state with the error on failure. -/
def execAction (s : AmmState) : AmmAction → AmmState × Option AmmError
  | .mintTokens user token amount => mintTokens s user token amount
  | .addLiquidity user tokenA tokenB amountA amountB =>
      addLiquidity s user tokenA tokenB amountA amountB
  | .removeLiquidity user tokenA tokenB liquidityAmount =>
      removeLiquidity s user tokenA tokenB liquidityAmount
  | .swapExactTokensForTokens user tokenIn tokenOut amountIn minAmountOut =>
      swapExactTokensForTokens s user tokenIn tokenOut amountIn minAmountOut

/-- Committed state after a call: the host keeps the previous state when the
engine reports an error. -/
def stepState (s : AmmState) (a : AmmAction) : AmmState := (execAction s a).1

/-- Run a sequence of operations from a starting state. -/
def runActions (s : AmmState) : List AmmAction → AmmState
  | [] => s
  | a :: rest => runActions (stepState s a) rest

/-! ## Frontend swap estimate (from `src/front/src/App.tsx`) -/

/-- Pool object as the frontend reads it from the indexer state; JavaScript
numbers are idealised as exact rationals. -/
structure JsPool where
  token_a : String
  token_b : String
  reserve_a : ℚ
  reserve_b : ℚ

/-- Embedded from `calculateSwapOutputFromPool` in `App.tsx`: returns 0 for a
missing pool, empty reserves or a non-positive input, and otherwise the
unfloored quotient `amountIn * 997 * reserve_out / (reserve_in * 1000 +
amountIn * 997)` with reserves matched to `tokenIn`. -/
def calculateSwapOutputFromPool (pool : Option JsPool) (tokenIn : String) (amountIn : ℚ) :
    ℚ :=
  match pool with
  | none => 0
  | some pool =>
    if pool.reserve_a = 0 ∨ pool.reserve_b = 0 ∨ amountIn ≤ 0 then 0 else
    let reserveIn : ℚ := if pool.token_a = tokenIn then pool.reserve_a else pool.reserve_b
    let reserveOut : ℚ := if pool.token_a = tokenIn then pool.reserve_b else pool.reserve_a
    let amountInWithFee : ℚ := amountIn * 997
    amountInWithFee * reserveOut / (reserveIn * 1000 + amountInWithFee)

/-- JavaScript `x.toFixed(4)` for a non-negative `x`, idealised over ℚ: the
rendered decimal is `n / 10^4` where `n` is the integer closest to `x * 10^4`,
the larger one on ties (the ECMAScript Number.prototype.toFixed rule). -/
def toFixed4 (x : ℚ) : ℚ := (⌊x * 10000 + 1 / 2⌋ : ℚ) / 10000

/-- JavaScript `parseInt` applied to the decimal string `toFixed(4)` renders:
it truncates at the decimal point, i.e. takes the floor for non-negative
values. -/
def parseIntOfDecimal (x : ℚ) : ℤ := ⌊x⌋

/-- Embedded from `handlePoolSwap` together with the swap-input `onChange`
handler in `App.tsx`: the `min_amount_out` submitted with a swap is
`parseInt(outputAmount.toFixed(4))`, where `outputAmount` is the frontend
estimate. -/
def handlePoolSwapMinAmountOut (pool : Option JsPool) (tokenIn : String) (amountIn : ℚ) :
    ℤ :=
  parseIntOfDecimal (toFixed4 (calculateSwapOutputFromPool pool tokenIn amountIn))

/-! ## Well-formedness invariants and example-state builders -/

/-- Well-formed pool: non-negative fields and the spec's zero-coupling — a
pool is fully uninitialized or fully funded. -/
def PoolWF (p : LiquidityPool) : Prop :=
  0 ≤ p.reserve_a ∧ 0 ≤ p.reserve_b ∧ 0 ≤ p.total_liquidity ∧
  (p.reserve_a = 0 ↔ p.total_liquidity = 0) ∧ (p.reserve_b = 0 ↔ p.total_liquidity = 0)

/-- Well-formed engine state: all tracked balances non-negative and every
pool well-formed. -/
def StateWF (s : AmmState) : Prop :=
  (∀ k, 0 ≤ s.user_balances k) ∧ ∀ k p, s.pools k = some p → PoolWF p

/-- State holding a single pool and a single non-zero balance entry. -/
def singlePoolState (p : LiquidityPool) (k1 : String) (v1 : ℤ) : AmmState :=
  ⟨fun k => if k = k1 then v1 else 0,
   fun k => if k = getPairKey p.token_a p.token_b then some p else none⟩

/-- State holding a single pool and two non-zero balance entries. -/
def twoBalanceState (p : LiquidityPool) (k1 : String) (v1 : ℤ) (k2 : String) (v2 : ℤ) :
    AmmState :=
  ⟨fun k => if k = k1 then v1 else if k = k2 then v2 else 0,
   fun k => if k = getPairKey p.token_a p.token_b then some p else none⟩

/-- State holding two non-zero balance entries and no pools at all. -/
def noPoolState (k1 : String) (v1 : ℤ) (k2 : String) (v2 : ℤ) : AmmState :=
  ⟨fun k => if k = k1 then v1 else if k = k2 then v2 else 0, fun _ => none⟩


/-! ## String-ordering lemmas -/

theorem charListLt_false_antisymm :
    ∀ {xs ys : List Char}, charListLt xs ys = false → charListLt ys xs = false → xs = ys
  | [], [], _, _ => rfl
  | [], _ :: _, h, _ => by simp [charListLt] at h
  | _ :: _, [], _, h => by simp [charListLt] at h
  | a :: as, b :: bs, h₁, h₂ => by
    simp only [charListLt] at h₁ h₂
    rcases Nat.lt_trichotomy a.toNat b.toNat with h | h | h
    · simp [h] at h₁
    · rw [if_neg (by omega), if_neg (by omega)] at h₁ h₂
      have hn : a.toNat = b.toNat := by omega
      have hch : a = b := Char.ext (UInt32.toNat.inj hn)
      rw [hch, charListLt_false_antisymm h₁ h₂]
    · simp [h] at h₂

theorem charListLt_asymm :
    ∀ {xs ys : List Char}, charListLt xs ys = true → charListLt ys xs = false
  | [], [], h => by simp [charListLt] at h
  | [], _ :: _, _ => by simp [charListLt]
  | _ :: _, [], h => by simp [charListLt] at h
  | a :: as, b :: bs, h => by
    simp only [charListLt] at h ⊢
    rcases Nat.lt_trichotomy a.toNat b.toNat with hc | hc | hc
    · rw [if_neg (by omega), if_pos (by omega)]
    · rw [if_neg (by omega), if_neg (by omega)] at h ⊢
      exact charListLt_asymm h
    · simp [Nat.lt_asymm hc, hc] at h

theorem strLt_false_antisymm {a b : String} (h₁ : strLt a b = false)
    (h₂ : strLt b a = false) : a = b :=
  String.ext (charListLt_false_antisymm h₁ h₂)

theorem strLt_asymm {a b : String} (h : strLt a b = true) : strLt b a = false :=
  charListLt_asymm h

theorem getPairKey_comm (a b : String) : getPairKey a b = getPairKey b a := by
  unfold getPairKey
  cases hba : strLt b a with
  | false =>
    cases hab : strLt a b with
    | false => rw [strLt_false_antisymm hab hba]
    | true => simp
  | true =>
    rw [strLt_asymm hba]
    simp

/-! ## Ledger-map lemmas -/

theorem setBal_apply_eq (b : String → ℤ) (k : String) (v : ℤ) : setBal b k v k = v := by
  simp [setBal]

theorem setBal_apply_ne (b : String → ℤ) {k k' : String} (v : ℤ) (h : k' ≠ k) :
    setBal b k v k' = b k' := by
  simp [setBal, h]

theorem credit_apply_eq (b : String → ℤ) (k : String) (a : ℤ) : credit b k a k = b k + a := by
  simp [credit, setBal]

theorem credit_apply_ne (b : String → ℤ) {k k' : String} (a : ℤ) (h : k' ≠ k) :
    credit b k a k' = b k' := by
  simp [credit, setBal, h]

theorem debit_eq_some {b : String → ℤ} {k : String} {a : ℤ} (h : a ≤ b k) :
    debit b k a = some (setBal b k (b k - a)) := by
  simp [debit, h]

theorem debit_eq_none {b : String → ℤ} {k : String} {a : ℤ} (h : ¬ a ≤ b k) :
    debit b k a = none := by
  simp [debit, h]

/-! ## Claim theorems -/

/-- C8: the canonical pair key is symmetric — `(A, B)` and `(B, A)` produce
the identical pool key and LP-share balance key, and `GetReserves` reports the
same pool for both argument orders. -/
theorem pair_key_symmetric :
    (∀ a b : String, getPairKey a b = getPairKey b a) ∧
    (∀ u a b : String, liquidityKey u a b = liquidityKey u b a) ∧
    (∀ (s : AmmState) (a b : String), getReserves s a b = getReserves s b a) := by
  refine ⟨getPairKey_comm, fun u a b => ?_, fun s a b => ?_⟩
  · unfold liquidityKey
    rw [getPairKey_comm]
  · unfold getReserves
    rw [getPairKey_comm]

/-- C10: balance-key construction by plain string concatenation with the
underscore separator is not injective — the distinct user/token pairs
`("a_b", "c")` and `("a", "b_c")`, whose identifiers themselves contain the
separator, produce the same ledger key, so two logically distinct balances
alias one entry. -/
theorem balance_key_not_injective :
    balanceKey "a_b" "c" = balanceKey "a" "b_c" ∧ ("a_b", "c") ≠ ("a", "b_c") ∧
    '_' ∈ "a_b".data ∧ '_' ∈ "b_c".data := by
  decide

/-! ## Cast lemmas for the swap formula -/

theorem natCast_swap_div (rin rout ain : ℕ) :
    ((ain * 997 * rout / (rin * 1000 + ain * 997) : ℕ) : ℤ)
      = (ain : ℤ) * 997 * (rout : ℤ) / ((rin : ℤ) * 1000 + (ain : ℤ) * 997) := by
  rw [Int.ofNat_ediv]
  push_cast
  ring_nf

/-- C1: a successful swap against a pool with positive reserves credits the
user exactly `floor(amount_in * 997 * reserve_out / (reserve_in * 1000 +
amount_in * 997))` of the output token (the Nat division on the right of the
conclusion is that floor). -/
theorem swap_output_is_floor_formula
    (s : AmmState) (user tin tout : String) (ain minOut : ℕ) (pool : LiquidityPool)
    (rin rout : ℕ)
    (hpool : s.pools (getPairKey tin tout) = some pool)
    (hin : (if pool.token_a = tin then pool.reserve_a else pool.reserve_b) = (rin : ℤ))
    (hout : (if pool.token_a = tin then pool.reserve_b else pool.reserve_a) = (rout : ℤ))
    (hrin : 0 < rin) (hrout : 0 < rout)
    (hbal : (ain : ℤ) ≤ s.user_balances (balanceKey user tin))
    (hkey : balanceKey user tout ≠ balanceKey user tin)
    (hmin : minOut ≤ ain * 997 * rout / (rin * 1000 + ain * 997)) :
    (swapExactTokensForTokens s user tin tout ain minOut).2 = none ∧
    getUserBalance (swapExactTokensForTokens s user tin tout ain minOut).1 user tout
      = getUserBalance s user tout
        + ((ain * 997 * rout / (rin * 1000 + ain * 997) : ℕ) : ℤ) := by
  have hres : ¬ (pool.reserve_a = 0 ∨ pool.reserve_b = 0) := by
    by_cases hta : pool.token_a = tin
    · rw [if_pos hta] at hin hout
      push_neg
      exact ⟨by rw [hin]; omega, by rw [hout]; omega⟩
    · rw [if_neg hta] at hin hout
      push_neg
      exact ⟨by rw [hout]; omega, by rw [hin]; omega⟩
  have hcast := natCast_swap_div rin rout ain
  have haout_lt : ain * 997 * rout / (rin * 1000 + ain * 997) < rout := by
    apply (Nat.div_lt_iff_lt_mul (by omega)).mpr
    nlinarith
  have hslip : ¬ ((ain : ℤ) * 997 * (rout : ℤ) / ((rin : ℤ) * 1000 + (ain : ℤ) * 997)
      < (minOut : ℤ)) := by
    rw [← hcast]
    push_neg
    exact_mod_cast hmin
  have hguard : (ain : ℤ) * 997 * (rout : ℤ) / ((rin : ℤ) * 1000 + (ain : ℤ) * 997)
      ≤ (rout : ℤ) := by
    rw [← hcast]
    exact_mod_cast haout_lt.le
  simp only [swapExactTokensForTokens, hpool, if_neg hres, debit_eq_some hbal, hin, hout,
    if_neg hslip, if_pos hguard]
  refine ⟨trivial, ?_⟩
  simp [getUserBalance, credit, setBal, hkey, hcast]

/-- Witness for C1 at the spec's two concrete scenarios: reserves
100000/100000 with `amount_in = 1000` yield exactly 987, and reserves 1000/1
(ETH/USDC pool holding 1 ETH and 1000 USDC) with `amount_in = 100` yield
exactly 0. -/
theorem swap_output_is_floor_formula_witness :
    (((swapExactTokensForTokens (singlePoolState ⟨"ETH", "USDC", 100000, 100000, 100000⟩
          (balanceKey "alice" "USDC") 1000) "alice" "USDC" "ETH" 1000 0).2 = none) ∧
      getUserBalance ((swapExactTokensForTokens (singlePoolState
          ⟨"ETH", "USDC", 100000, 100000, 100000⟩
          (balanceKey "alice" "USDC") 1000) "alice" "USDC" "ETH" 1000 0)).1 "alice" "ETH"
        = 987) ∧
    (((swapExactTokensForTokens (singlePoolState ⟨"ETH", "USDC", 1, 1000, 31⟩
          (balanceKey "alice" "USDC") 1000) "alice" "USDC" "ETH" 100 0).2 = none) ∧
      getUserBalance ((swapExactTokensForTokens (singlePoolState ⟨"ETH", "USDC", 1, 1000, 31⟩
          (balanceKey "alice" "USDC") 1000) "alice" "USDC" "ETH" 100 0)).1 "alice" "ETH"
        = 0) := by
  constructor
  · have h := swap_output_is_floor_formula
      (singlePoolState ⟨"ETH", "USDC", 100000, 100000, 100000⟩ (balanceKey "alice" "USDC") 1000)
      "alice" "USDC" "ETH" 1000 0 ⟨"ETH", "USDC", 100000, 100000, 100000⟩ 100000 100000
      (by decide) (by decide) (by decide) (by decide) (by decide) (by decide) (by decide)
      (by decide)
    refine ⟨h.1, ?_⟩
    rw [h.2]
    decide
  · have h := swap_output_is_floor_formula
      (singlePoolState ⟨"ETH", "USDC", 1, 1000, 31⟩ (balanceKey "alice" "USDC") 1000)
      "alice" "USDC" "ETH" 100 0 ⟨"ETH", "USDC", 1, 1000, 31⟩ 1000 1
      (by decide) (by decide) (by decide) (by decide) (by decide) (by decide) (by decide)
      (by decide)
    refine ⟨h.1, ?_⟩
    rw [h.2]
    decide

/-- C5: an engine call that reports an error commits no state change — the
returned state is exactly the input state for every operation and every error —
and in particular a swap whose computed output falls below the caller's
`min_amount_out` fails with `slippageExceeded` and leaves the state unchanged. -/
theorem errors_leave_state_unchanged :
    (∀ (s : AmmState) (a : AmmAction) (s' : AmmState) (e : AmmError),
        execAction s a = (s', some e) → s' = s) ∧
    (∀ (s : AmmState) (user tin tout : String) (ain minOut : ℕ) (pool : LiquidityPool)
        (rin rout : ℤ),
        s.pools (getPairKey tin tout) = some pool →
        (if pool.token_a = tin then pool.reserve_a else pool.reserve_b) = rin →
        (if pool.token_a = tin then pool.reserve_b else pool.reserve_a) = rout →
        pool.reserve_a ≠ 0 → pool.reserve_b ≠ 0 →
        (ain : ℤ) ≤ s.user_balances (balanceKey user tin) →
        (ain : ℤ) * 997 * rout / (rin * 1000 + (ain : ℤ) * 997) < (minOut : ℤ) →
        swapExactTokensForTokens s user tin tout ain minOut = (s, some .slippageExceeded)) := by
  constructor
  · intro s a s' e h
    cases a with
    | mintTokens u t amt => simp [execAction, mintTokens] at h
    | addLiquidity u tA tB x y =>
      simp only [execAction, addLiquidity] at h
      repeat' split at h
      all_goals first
        | exact ((Prod.ext_iff.mp h).1).symm
        | simp at h
    | removeLiquidity u tA tB l =>
      simp only [execAction, removeLiquidity] at h
      repeat' split at h
      all_goals first
        | exact ((Prod.ext_iff.mp h).1).symm
        | simp at h
    | swapExactTokensForTokens u tin tout ain mo =>
      simp only [execAction, swapExactTokensForTokens] at h
      repeat' split at h
      all_goals first
        | exact ((Prod.ext_iff.mp h).1).symm
        | simp at h
  · intro s user tin tout ain minOut pool rin rout hpool hin hout ha hb hbal hslip
    have hres : ¬ (pool.reserve_a = 0 ∨ pool.reserve_b = 0) := by
      push_neg
      exact ⟨ha, hb⟩
    simp only [swapExactTokensForTokens, hpool, if_neg hres, debit_eq_some hbal, hin, hout,
      if_pos hslip]

/-- Witness for C5: on the 100000/100000 pool the computed output of a
1000-token swap is 987, so demanding at least 1000 fails with
`slippageExceeded` and returns the state unchanged. -/
theorem errors_leave_state_unchanged_witness :
    swapExactTokensForTokens (singlePoolState ⟨"ETH", "USDC", 100000, 100000, 100000⟩
        (balanceKey "alice" "USDC") 1000) "alice" "USDC" "ETH" 1000 1000
      = (singlePoolState ⟨"ETH", "USDC", 100000, 100000, 100000⟩
          (balanceKey "alice" "USDC") 1000, some .slippageExceeded) := by
  exact errors_leave_state_unchanged.2
    (singlePoolState ⟨"ETH", "USDC", 100000, 100000, 100000⟩ (balanceKey "alice" "USDC") 1000)
    "alice" "USDC" "ETH" 1000 1000 ⟨"ETH", "USDC", 100000, 100000, 100000⟩ 100000 100000
    (by decide) (by decide) (by decide) (by decide) (by decide) (by decide) (by decide)

/-! ## Integer square root is the floor square root -/

theorem isqrtGo_sq_le (n : ℕ) : ∀ k, isqrtGo n k * isqrtGo n k ≤ n
  | 0 => by simp [isqrtGo]
  | k + 1 => by
    simp only [isqrtGo]
    split
    · assumption
    · exact isqrtGo_sq_le n k

theorem le_isqrtGo (n : ℕ) : ∀ k j, j ≤ k → j * j ≤ n → j ≤ isqrtGo n k
  | 0, j, hj, _ => by simpa [isqrtGo] using hj
  | k + 1, j, hj, hjn => by
    simp only [isqrtGo]
    split
    · exact hj
    · rename_i hc
      rcases Nat.lt_or_ge j (k + 1) with h | h
      · exact le_isqrtGo n k j (Nat.lt_succ_iff.mp h) hjn
      · exact absurd (Nat.le_trans (Nat.mul_le_mul h h) hjn) hc

theorem integerSqrt_eq_sqrt (n : ℕ) : integerSqrt n = Nat.sqrt n := by
  apply Nat.le_antisymm
  · exact Nat.le_sqrt.mpr (isqrtGo_sq_le n n)
  · exact le_isqrtGo n n (Nat.sqrt n) (Nat.sqrt_le_self n) (Nat.sqrt_le n)

theorem one_le_integerSqrt {n : ℕ} (h : 1 ≤ n) : 1 ≤ integerSqrt n :=
  le_isqrtGo n n 1 h (by simpa using h)

/-! ## More map and cast lemmas -/

theorem setPool_apply_eq (ps : String → Option LiquidityPool) (k : String)
    (p : LiquidityPool) : setPool ps k p k = some p := by
  simp [setPool]

theorem setPool_apply_ne (ps : String → Option LiquidityPool) {k k' : String}
    (p : LiquidityPool) (h : k' ≠ k) : setPool ps k p k' = ps k' := by
  simp [setPool, h]

theorem natCast_mul_div (x y z : ℕ) :
    ((x * y / z : ℕ) : ℤ) = (x : ℤ) * (y : ℤ) / (z : ℤ) := by
  rw [Int.ofNat_ediv]
  push_cast
  ring_nf

/-! ## Constant-product arithmetic -/

theorem swap_product_core (rin rout ain : ℤ) (hrin : 0 < rin) (hrout : 0 < rout)
    (hain : 0 ≤ ain) :
    rin * rout ≤ (rin + ain) * (rout - ain * 997 * rout / (rin * 1000 + ain * 997)) ∧
    (0 < ain →
      rin * rout < (rin + ain) * (rout - ain * 997 * rout / (rin * 1000 + ain * 997))) := by
  have hd : 0 < rin * 1000 + ain * 997 := by nlinarith
  set q := ain * 997 * rout / (rin * 1000 + ain * 997) with hq
  have hq0 : 0 ≤ q := Int.ediv_nonneg (by nlinarith) hd.le
  have h1 : q * (rin * 1000 + ain * 997) ≤ ain * 997 * rout := Int.ediv_mul_le _ hd.ne'
  have hqrin : 0 ≤ q * rin := mul_nonneg hq0 hrin.le
  have key : q * (rin + ain) ≤ ain * rout := by nlinarith
  constructor
  · nlinarith
  · intro hain'
    rcases eq_or_lt_of_le hq0 with h0 | hqpos
    · rw [← h0]
      nlinarith [mul_pos hain' hrout]
    · have key2 : q * (rin + ain) < ain * rout := by nlinarith [mul_pos hqpos hrin]
      nlinarith

/-- C2: across a successful swap the product of the two reserves never
decreases, and strictly increases whenever `amount_in > 0`; and a liquidity
operation can leave the product exactly equal (removing zero liquidity leaves
the pool untouched). -/
theorem swap_constant_product_monotone :
    (∀ (s : AmmState) (user tin tout : String) (ain minOut : ℕ) (pool : LiquidityPool)
        (rin rout : ℕ),
      s.pools (getPairKey tin tout) = some pool →
      (if pool.token_a = tin then pool.reserve_a else pool.reserve_b) = (rin : ℤ) →
      (if pool.token_a = tin then pool.reserve_b else pool.reserve_a) = (rout : ℤ) →
      0 < rin → 0 < rout →
      (ain : ℤ) ≤ s.user_balances (balanceKey user tin) →
      minOut ≤ ain * 997 * rout / (rin * 1000 + ain * 997) →
      ∃ pool', (swapExactTokensForTokens s user tin tout ain minOut).1.pools
          (getPairKey tin tout) = some pool' ∧
        pool.reserve_a * pool.reserve_b ≤ pool'.reserve_a * pool'.reserve_b ∧
        (0 < ain → pool.reserve_a * pool.reserve_b < pool'.reserve_a * pool'.reserve_b)) ∧
    (∃ (s : AmmState) (u tA tB : String) (l : ℕ),
      (removeLiquidity s u tA tB l).2 = none ∧
      (removeLiquidity s u tA tB l).1.pools (getPairKey tA tB) = s.pools (getPairKey tA tB)) := by
  constructor
  · intro s user tin tout ain minOut pool rin rout hpool hin hout hrin hrout hbal hmin
    have hres : ¬ (pool.reserve_a = 0 ∨ pool.reserve_b = 0) := by
      by_cases hta : pool.token_a = tin
      · rw [if_pos hta] at hin hout
        push_neg
        exact ⟨by rw [hin]; omega, by rw [hout]; omega⟩
      · rw [if_neg hta] at hin hout
        push_neg
        exact ⟨by rw [hout]; omega, by rw [hin]; omega⟩
    have hcast := natCast_swap_div rin rout ain
    have hslip : ¬ ((ain : ℤ) * 997 * (rout : ℤ) / ((rin : ℤ) * 1000 + (ain : ℤ) * 997)
        < (minOut : ℤ)) := by
      rw [← hcast]
      push_neg
      exact_mod_cast hmin
    have haout_lt : ain * 997 * rout / (rin * 1000 + ain * 997) < rout := by
      apply (Nat.div_lt_iff_lt_mul (by omega)).mpr
      nlinarith
    have hguard : (ain : ℤ) * 997 * (rout : ℤ) / ((rin : ℤ) * 1000 + (ain : ℤ) * 997)
        ≤ (rout : ℤ) := by
      rw [← hcast]
      exact_mod_cast haout_lt.le
    have hrinZ : (0 : ℤ) < (rin : ℤ) := by exact_mod_cast hrin
    have hroutZ : (0 : ℤ) < (rout : ℤ) := by exact_mod_cast hrout
    have hainZ : (0 : ℤ) ≤ (ain : ℤ) := Int.natCast_nonneg ain
    have hcore := swap_product_core (rin : ℤ) (rout : ℤ) (ain : ℤ) hrinZ hroutZ hainZ
    simp only [swapExactTokensForTokens, hpool, if_neg hres, debit_eq_some hbal, hin, hout,
      if_neg hslip, if_pos hguard]
    by_cases hta : pool.token_a = tin
    · rw [if_pos hta] at hin hout ⊢
      refine ⟨_, setPool_apply_eq .., ?_, ?_⟩
      · simp only [hin, hout]
        exact hcore.1
      · intro hain
        simp only [hin, hout]
        exact hcore.2 (by exact_mod_cast hain)
    · rw [if_neg hta] at hin hout ⊢
      refine ⟨_, setPool_apply_eq .., ?_, ?_⟩
      · simp only [hin, hout]
        calc (rout : ℤ) * (rin : ℤ) = (rin : ℤ) * (rout : ℤ) := mul_comm ..
          _ ≤ _ := hcore.1
          _ = _ := mul_comm ..
      · intro hain
        simp only [hin, hout]
        calc (rout : ℤ) * (rin : ℤ) = (rin : ℤ) * (rout : ℤ) := mul_comm ..
          _ < _ := hcore.2 (by exact_mod_cast hain)
          _ = _ := mul_comm ..
  · refine ⟨singlePoolState ⟨"A", "B", 2, 3, 2⟩ (liquidityKey "u" "A" "B") 0,
      "u", "A", "B", 0, ?_, ?_⟩ <;> decide

/-- Witness for C2: the 1000-token swap on the 100000/100000 pool strictly
increases the reserve product. -/
theorem swap_constant_product_monotone_witness :
    ∃ pool', (swapExactTokensForTokens (singlePoolState ⟨"ETH", "USDC", 100000, 100000, 100000⟩
        (balanceKey "alice" "USDC") 1000) "alice" "USDC" "ETH" 1000 0).1.pools
        (getPairKey "USDC" "ETH") = some pool' ∧
      (100000 : ℤ) * 100000 ≤ pool'.reserve_a * pool'.reserve_b ∧
      (0 < 1000 → (100000 : ℤ) * 100000 < pool'.reserve_a * pool'.reserve_b) := by
  simpa using swap_constant_product_monotone.1
    (singlePoolState ⟨"ETH", "USDC", 100000, 100000, 100000⟩ (balanceKey "alice" "USDC") 1000)
    "alice" "USDC" "ETH" 1000 0 ⟨"ETH", "USDC", 100000, 100000, 100000⟩ 100000 100000
    (by decide) (by decide) (by decide) (by decide) (by decide) (by decide) (by decide)

/-- C3: AddLiquidity mints `floor(sqrt(amount_a * amount_b))` LP shares when
both reserves are zero, accepting any deposit ratio, and mints
`floor(amount_a * total_liquidity / reserve_a)` for a funded pool, with no
hypothesis constraining `amount_b` to the pool ratio (the engine does not
validate it). -/
theorem add_liquidity_minted_shares :
    (∀ (s : AmmState) (u tA tB : String) (a b : ℕ),
      a ≠ 0 → b ≠ 0 →
      balanceKey u tB ≠ balanceKey u tA →
      liquidityKey u tA tB ≠ balanceKey u tA →
      liquidityKey u tA tB ≠ balanceKey u tB →
      (a : ℤ) ≤ s.user_balances (balanceKey u tA) →
      (b : ℤ) ≤ s.user_balances (balanceKey u tB) →
      (∀ p, s.pools (getPairKey tA tB) = some p → p.reserve_a = 0 ∧ p.reserve_b = 0) →
      (addLiquidity s u tA tB a b).2 = none ∧
      (addLiquidity s u tA tB a b).1.user_balances (liquidityKey u tA tB)
        = s.user_balances (liquidityKey u tA tB) + (Nat.sqrt (a * b) : ℤ)) ∧
    (∀ (s : AmmState) (u tA tB : String) (a b : ℕ) (pool : LiquidityPool) (ra L : ℕ),
      a ≠ 0 → b ≠ 0 →
      balanceKey u tB ≠ balanceKey u tA →
      liquidityKey u tA tB ≠ balanceKey u tA →
      liquidityKey u tA tB ≠ balanceKey u tB →
      (a : ℤ) ≤ s.user_balances (balanceKey u tA) →
      (b : ℤ) ≤ s.user_balances (balanceKey u tB) →
      s.pools (getPairKey tA tB) = some pool →
      (pool.reserve_a ≠ 0 ∨ pool.reserve_b ≠ 0) →
      (if pool.token_a = tA then pool.reserve_a else pool.reserve_b) = (ra : ℤ) →
      pool.total_liquidity = (L : ℤ) →
      (addLiquidity s u tA tB a b).2 = none ∧
      (addLiquidity s u tA tB a b).1.user_balances (liquidityKey u tA tB)
        = s.user_balances (liquidityKey u tA tB) + ((a * L / ra : ℕ) : ℤ)) := by
  constructor
  · intro s u tA tB a b ha hb hBA hLA hLB hbalA hbalB hfresh
    have hz : ¬ (a = 0 ∨ b = 0) := by omega
    have hbalB' : (b : ℤ) ≤ setBal s.user_balances (balanceKey u tA)
        (s.user_balances (balanceKey u tA) - (a : ℤ)) (balanceKey u tB) := by
      rw [setBal_apply_ne _ _ hBA]
      exact hbalB
    rcases hp : s.pools (getPairKey tA tB) with _ | p
    · simp only [addLiquidity, if_neg hz, debit_eq_some hbalA, debit_eq_some hbalB', hp]
      cases hst : strLt tB tA
      all_goals refine ⟨trivial, ?_⟩
      all_goals simp [credit, setBal, hLA, hLB, integerSqrt_eq_sqrt]
    · have hp0 := hfresh p hp
      simp only [addLiquidity, if_neg hz, debit_eq_some hbalA, debit_eq_some hbalB', hp,
        if_pos hp0]
      refine ⟨trivial, ?_⟩
      simp [credit, setBal, hLA, hLB, integerSqrt_eq_sqrt]
  · intro s u tA tB a b pool ra L ha hb hBA hLA hLB hbalA hbalB hpool hnz hra hL
    have hz : ¬ (a = 0 ∨ b = 0) := by omega
    have hbalB' : (b : ℤ) ≤ setBal s.user_balances (balanceKey u tA)
        (s.user_balances (balanceKey u tA) - (a : ℤ)) (balanceKey u tB) := by
      rw [setBal_apply_ne _ _ hBA]
      exact hbalB
    have hnz' : ¬ (pool.reserve_a = 0 ∧ pool.reserve_b = 0) := by tauto
    simp only [addLiquidity, if_neg hz, debit_eq_some hbalA, debit_eq_some hbalB', hpool,
      if_neg hnz']
    by_cases hta : pool.token_a = tA
    · rw [if_pos hta] at hra ⊢
      refine ⟨trivial, ?_⟩
      simp [credit, setBal, hLA, hLB, hra, hL, natCast_mul_div]
    · rw [if_neg hta] at hra ⊢
      refine ⟨trivial, ?_⟩
      simp [credit, setBal, hLA, hLB, hra, hL, natCast_mul_div]

set_option maxRecDepth 10000 in
/-- Witness for C3: bootstrapping a fresh USDC/ETH pool with 1000 and 1 mints
exactly `floor(sqrt(1000)) = 31` shares, and a mismatched-ratio deposit of
(3, 500) into a funded 1000/1000 pool succeeds and mints
`floor(3 * 1000 / 1000) = 3` shares. -/
theorem add_liquidity_minted_shares_witness :
    ((addLiquidity (noPoolState (balanceKey "u" "USDC") 1000 (balanceKey "u" "ETH") 1)
        "u" "USDC" "ETH" 1000 1).2 = none ∧
      (addLiquidity (noPoolState (balanceKey "u" "USDC") 1000 (balanceKey "u" "ETH") 1)
        "u" "USDC" "ETH" 1000 1).1.user_balances (liquidityKey "u" "USDC" "ETH") = 31) ∧
    ((addLiquidity (twoBalanceState ⟨"A", "B", 1000, 1000, 1000⟩ (balanceKey "u" "A") 10
        (balanceKey "u" "B") 500) "u" "A" "B" 3 500).2 = none ∧
      (addLiquidity (twoBalanceState ⟨"A", "B", 1000, 1000, 1000⟩ (balanceKey "u" "A") 10
        (balanceKey "u" "B") 500) "u" "A" "B" 3 500).1.user_balances
        (liquidityKey "u" "A" "B") = 3) := by
  constructor
  · have h := add_liquidity_minted_shares.1
      (noPoolState (balanceKey "u" "USDC") 1000 (balanceKey "u" "ETH") 1)
      "u" "USDC" "ETH" 1000 1 (by decide) (by decide) (by decide) (by decide) (by decide)
      (by decide) (by decide) (by intro p hp; simp [noPoolState] at hp)
    refine ⟨h.1, ?_⟩
    rw [h.2, ← integerSqrt_eq_sqrt]
    decide
  · have h := add_liquidity_minted_shares.2
      (twoBalanceState ⟨"A", "B", 1000, 1000, 1000⟩ (balanceKey "u" "A") 10
        (balanceKey "u" "B") 500)
      "u" "A" "B" 3 500 ⟨"A", "B", 1000, 1000, 1000⟩ 1000 1000 (by decide) (by decide)
      (by decide) (by decide) (by decide) (by decide) (by decide) (by decide) (by decide)
      (by decide) (by decide)
    refine ⟨h.1, ?_⟩
    rw [h.2]
    decide

/-! ## Operation-level characterisation lemmas -/

theorem ediv_le_of_le_mul {x a d : ℤ} (hd : 0 < d) (h : x ≤ a * d) : x / d ≤ a := by
  calc x / d ≤ a * d / d := Int.ediv_le_ediv hd h
    _ = a := Int.mul_ediv_cancel a hd.ne'

theorem add_liquidity_existing_spec
    (s : AmmState) (u tA tB : String) (a b : ℕ) (pool : LiquidityPool)
    (ha : a ≠ 0) (hb : b ≠ 0)
    (hBA : balanceKey u tB ≠ balanceKey u tA)
    (hLA : liquidityKey u tA tB ≠ balanceKey u tA)
    (hLB : liquidityKey u tA tB ≠ balanceKey u tB)
    (hbalA : (a : ℤ) ≤ s.user_balances (balanceKey u tA))
    (hbalB : (b : ℤ) ≤ s.user_balances (balanceKey u tB))
    (hpool : s.pools (getPairKey tA tB) = some pool)
    (hnz : ¬ (pool.reserve_a = 0 ∧ pool.reserve_b = 0)) :
    (addLiquidity s u tA tB a b).2 = none ∧
    (addLiquidity s u tA tB a b).1.user_balances (balanceKey u tA)
      = s.user_balances (balanceKey u tA) - (a : ℤ) ∧
    (addLiquidity s u tA tB a b).1.user_balances (balanceKey u tB)
      = s.user_balances (balanceKey u tB) - (b : ℤ) ∧
    (addLiquidity s u tA tB a b).1.user_balances (liquidityKey u tA tB)
      = s.user_balances (liquidityKey u tA tB)
        + (a : ℤ) * pool.total_liquidity
            / (if pool.token_a = tA then pool.reserve_a else pool.reserve_b) ∧
    (addLiquidity s u tA tB a b).1.pools (getPairKey tA tB)
      = some { pool with
          reserve_a := pool.reserve_a + (if pool.token_a = tA then (a : ℤ) else (b : ℤ)),
          reserve_b := pool.reserve_b + (if pool.token_a = tA then (b : ℤ) else (a : ℤ)),
          total_liquidity := pool.total_liquidity
            + (a : ℤ) * pool.total_liquidity
                / (if pool.token_a = tA then pool.reserve_a else pool.reserve_b) } := by
  have hz : ¬ (a = 0 ∨ b = 0) := by omega
  have hbalB' : (b : ℤ) ≤ setBal s.user_balances (balanceKey u tA)
      (s.user_balances (balanceKey u tA) - (a : ℤ)) (balanceKey u tB) := by
    rw [setBal_apply_ne _ _ hBA]
    exact hbalB
  simp only [addLiquidity, if_neg hz, debit_eq_some hbalA, debit_eq_some hbalB', hpool,
    if_neg hnz]
  by_cases hta : pool.token_a = tA <;>
    simp [hta, credit, setBal, setPool_apply_eq, hBA, hLA, hLB, Ne.symm hBA, Ne.symm hLA,
      Ne.symm hLB]

theorem add_liquidity_fresh_spec
    (s : AmmState) (u tA tB : String) (a b : ℕ)
    (ha : a ≠ 0) (hb : b ≠ 0) (htne : tB ≠ tA)
    (hBA : balanceKey u tB ≠ balanceKey u tA)
    (hLA : liquidityKey u tA tB ≠ balanceKey u tA)
    (hLB : liquidityKey u tA tB ≠ balanceKey u tB)
    (hbalA : (a : ℤ) ≤ s.user_balances (balanceKey u tA))
    (hbalB : (b : ℤ) ≤ s.user_balances (balanceKey u tB))
    (hpool : s.pools (getPairKey tA tB) = none) :
    (addLiquidity s u tA tB a b).2 = none ∧
    (addLiquidity s u tA tB a b).1.user_balances (balanceKey u tA)
      = s.user_balances (balanceKey u tA) - (a : ℤ) ∧
    (addLiquidity s u tA tB a b).1.user_balances (balanceKey u tB)
      = s.user_balances (balanceKey u tB) - (b : ℤ) ∧
    (addLiquidity s u tA tB a b).1.user_balances (liquidityKey u tA tB)
      = s.user_balances (liquidityKey u tA tB) + (integerSqrt (a * b) : ℤ) ∧
    (addLiquidity s u tA tB a b).1.pools (getPairKey tA tB)
      = some (if strLt tB tA
          then ⟨tB, tA, (b : ℤ), (a : ℤ), (integerSqrt (a * b) : ℤ)⟩
          else ⟨tA, tB, (a : ℤ), (b : ℤ), (integerSqrt (a * b) : ℤ)⟩) := by
  have hz : ¬ (a = 0 ∨ b = 0) := by omega
  have hbalB' : (b : ℤ) ≤ setBal s.user_balances (balanceKey u tA)
      (s.user_balances (balanceKey u tA) - (a : ℤ)) (balanceKey u tB) := by
    rw [setBal_apply_ne _ _ hBA]
    exact hbalB
  simp only [addLiquidity, if_neg hz, debit_eq_some hbalA, debit_eq_some hbalB', hpool]
  cases hst : strLt tB tA <;>
    simp [htne, credit, setBal, setPool_apply_eq, hBA, hLA, hLB, Ne.symm hBA, Ne.symm hLA,
      Ne.symm hLB]

theorem remove_liquidity_spec
    (s : AmmState) (u tA tB : String) (l : ℕ) (pool : LiquidityPool)
    (hpool : s.pools (getPairKey tA tB) = some pool)
    (hLpos : 0 < pool.total_liquidity)
    (hlp : (l : ℤ) ≤ s.user_balances (liquidityKey u tA tB))
    (hga : (l : ℤ) * pool.reserve_a / pool.total_liquidity ≤ pool.reserve_a)
    (hgb : (l : ℤ) * pool.reserve_b / pool.total_liquidity ≤ pool.reserve_b)
    (hgl : (l : ℤ) ≤ pool.total_liquidity)
    (hab : balanceKey u pool.token_a ≠ balanceKey u pool.token_b)
    (hal : liquidityKey u tA tB ≠ balanceKey u pool.token_a)
    (hbl : liquidityKey u tA tB ≠ balanceKey u pool.token_b) :
    (removeLiquidity s u tA tB l).2 = none ∧
    (removeLiquidity s u tA tB l).1.user_balances (balanceKey u pool.token_a)
      = s.user_balances (balanceKey u pool.token_a)
        + (l : ℤ) * pool.reserve_a / pool.total_liquidity ∧
    (removeLiquidity s u tA tB l).1.user_balances (balanceKey u pool.token_b)
      = s.user_balances (balanceKey u pool.token_b)
        + (l : ℤ) * pool.reserve_b / pool.total_liquidity := by
  simp only [removeLiquidity, hpool, if_neg (not_le.mpr hLpos), debit_eq_some hlp,
    if_pos (⟨hga, hgb, hgl⟩ : _ ∧ _ ∧ _)]
  refine ⟨trivial, ?_, ?_⟩
  · rw [credit_apply_ne _ _ hab, credit_apply_eq, setBal_apply_ne _ _ (Ne.symm hal)]
  · rw [credit_apply_eq, credit_apply_ne _ _ (Ne.symm hab), setBal_apply_ne _ _ (Ne.symm hbl)]

/-- Counterexample to C4: from a funded 1000/1000 pool with total liquidity
1000, the user deposits (1000, 1) — a ratio far from the pool's — receives
1000 minted shares, and removing exactly those shares pays out 500 of token B
against a deposit of 1: the round-trip returns more than was deposited, so the
claimed "token amounts ≤ originally deposited amounts" fails, and so does any
"few units" bound. -/
theorem liquidity_round_trip_counterexample :
    (addLiquidity (twoBalanceState ⟨"A", "B", 1000, 1000, 1000⟩ (balanceKey "alice" "A") 1000
        (balanceKey "alice" "B") 1) "alice" "A" "B" 1000 1).2 = none ∧
    (addLiquidity (twoBalanceState ⟨"A", "B", 1000, 1000, 1000⟩ (balanceKey "alice" "A") 1000
        (balanceKey "alice" "B") 1) "alice" "A" "B" 1000 1).1.user_balances
        (liquidityKey "alice" "A" "B") = 1000 ∧
    (removeLiquidity (addLiquidity (twoBalanceState ⟨"A", "B", 1000, 1000, 1000⟩
        (balanceKey "alice" "A") 1000 (balanceKey "alice" "B") 1)
        "alice" "A" "B" 1000 1).1 "alice" "A" "B" 1000).2 = none ∧
    getUserBalance (removeLiquidity (addLiquidity (twoBalanceState ⟨"A", "B", 1000, 1000, 1000⟩
        (balanceKey "alice" "A") 1000 (balanceKey "alice" "B") 1)
        "alice" "A" "B" 1000 1).1 "alice" "A" "B" 1000).1 "alice" "B" = 500 ∧
    getUserBalance (twoBalanceState ⟨"A", "B", 1000, 1000, 1000⟩ (balanceKey "alice" "A") 1000
        (balanceKey "alice" "B") 1) "alice" "B" = 1 ∧
    ¬ ((500 : ℤ) ≤ 1) := by
  decide

set_option maxHeartbeats 1600000 in
/-- C4 (amended): AddLiquidity followed by RemoveLiquidity of exactly the
minted shares always returns a token_a amount at most the deposited amount_a;
when the deposit preserves the pool ratio (`amount_b * reserve_a = amount_a *
reserve_b`) the token_b payout is also at most its deposit; and on a pool the
state does not yet hold, the round-trip restores both balances exactly. -/
theorem liquidity_round_trip_amended :
    (∀ (s : AmmState) (u tA tB : String) (a b ra rb L : ℕ) (pool : LiquidityPool),
      a ≠ 0 → b ≠ 0 →
      balanceKey u tB ≠ balanceKey u tA →
      liquidityKey u tA tB ≠ balanceKey u tA →
      liquidityKey u tA tB ≠ balanceKey u tB →
      (a : ℤ) ≤ s.user_balances (balanceKey u tA) →
      (b : ℤ) ≤ s.user_balances (balanceKey u tB) →
      0 ≤ s.user_balances (liquidityKey u tA tB) →
      s.pools (getPairKey tA tB) = some pool →
      ((pool.token_a = tA ∧ pool.token_b = tB) ∨ (pool.token_a = tB ∧ pool.token_b = tA)) →
      (if pool.token_a = tA then pool.reserve_a else pool.reserve_b) = (ra : ℤ) →
      (if pool.token_a = tA then pool.reserve_b else pool.reserve_a) = (rb : ℤ) →
      pool.total_liquidity = (L : ℤ) →
      0 < ra → 0 < rb → 0 < L →
      (addLiquidity s u tA tB a b).2 = none ∧
      (removeLiquidity (addLiquidity s u tA tB a b).1 u tA tB (a * L / ra)).2 = none ∧
      getUserBalance (removeLiquidity (addLiquidity s u tA tB a b).1 u tA tB
          (a * L / ra)).1 u tA ≤ getUserBalance s u tA ∧
      (b * ra = a * rb →
        getUserBalance (removeLiquidity (addLiquidity s u tA tB a b).1 u tA tB
            (a * L / ra)).1 u tB ≤ getUserBalance s u tB)) ∧
    (∀ (s : AmmState) (u tA tB : String) (a b : ℕ),
      a ≠ 0 → b ≠ 0 →
      balanceKey u tB ≠ balanceKey u tA →
      liquidityKey u tA tB ≠ balanceKey u tA →
      liquidityKey u tA tB ≠ balanceKey u tB →
      (a : ℤ) ≤ s.user_balances (balanceKey u tA) →
      (b : ℤ) ≤ s.user_balances (balanceKey u tB) →
      0 ≤ s.user_balances (liquidityKey u tA tB) →
      s.pools (getPairKey tA tB) = none →
      (addLiquidity s u tA tB a b).2 = none ∧
      (removeLiquidity (addLiquidity s u tA tB a b).1 u tA tB (integerSqrt (a * b))).2
        = none ∧
      getUserBalance (removeLiquidity (addLiquidity s u tA tB a b).1 u tA tB
          (integerSqrt (a * b))).1 u tA = getUserBalance s u tA ∧
      getUserBalance (removeLiquidity (addLiquidity s u tA tB a b).1 u tA tB
          (integerSqrt (a * b))).1 u tB = getUserBalance s u tB) := by
  constructor
  · intro s u tA tB a b ra rb L pool ha hb hBA hLA hLB hbalA hbalB hbalLP hpool htok hra hrb
      hL hrapos hrbpos hLpos
    have hraZ : (0 : ℤ) < (ra : ℤ) := by exact_mod_cast hrapos
    have hrbZ : (0 : ℤ) < (rb : ℤ) := by exact_mod_cast hrbpos
    have hLZ : (0 : ℤ) < (L : ℤ) := by exact_mod_cast hLpos
    have haZ : (0 : ℤ) ≤ (a : ℤ) := Int.natCast_nonneg a
    have hbZ : (0 : ℤ) ≤ (b : ℤ) := Int.natCast_nonneg b
    have hnz : ¬ (pool.reserve_a = 0 ∧ pool.reserve_b = 0) := by
      rintro ⟨e1, e2⟩
      by_cases hta' : pool.token_a = tA
      · rw [if_pos hta', e1] at hra
        omega
      · rw [if_neg hta', e2] at hra
        omega
    have hMcast : ((a * L / ra : ℕ) : ℤ) = (a : ℤ) * (L : ℤ) / (ra : ℤ) := natCast_mul_div a L ra
    have hmZ : (0 : ℤ) ≤ (a : ℤ) * (L : ℤ) / (ra : ℤ) :=
      Int.ediv_nonneg (by positivity) hraZ.le
    have hkey1 : (a : ℤ) * (L : ℤ) / (ra : ℤ) * (ra : ℤ) ≤ (a : ℤ) * (L : ℤ) :=
      Int.ediv_mul_le _ hraZ.ne'
    obtain ⟨h0, h1, h2, h3, h4⟩ := add_liquidity_existing_spec s u tA tB a b pool ha hb hBA
      hLA hLB hbalA hbalB hpool hnz
    have hLtot : (0 : ℤ) < (L : ℤ) + (a : ℤ) * (L : ℤ) / (ra : ℤ) := by linarith
    have hgl' : ((a * L / ra : ℕ) : ℤ) ≤ (L : ℤ) + (a : ℤ) * (L : ℤ) / (ra : ℤ) := by
      rw [hMcast]
      linarith
    have hgaA : ((a * L / ra : ℕ) : ℤ) * ((ra : ℤ) + (a : ℤ))
        / ((L : ℤ) + (a : ℤ) * (L : ℤ) / (ra : ℤ)) ≤ (ra : ℤ) + (a : ℤ) := by
      rw [hMcast]
      apply ediv_le_of_le_mul hLtot
      nlinarith [mul_nonneg (by linarith : (0 : ℤ) ≤ (ra : ℤ) + (a : ℤ)) hLZ.le]
    have hgaB : ((a * L / ra : ℕ) : ℤ) * ((rb : ℤ) + (b : ℤ))
        / ((L : ℤ) + (a : ℤ) * (L : ℤ) / (ra : ℤ)) ≤ (rb : ℤ) + (b : ℤ) := by
      rw [hMcast]
      apply ediv_le_of_le_mul hLtot
      nlinarith [mul_nonneg (by linarith : (0 : ℤ) ≤ (rb : ℤ) + (b : ℤ)) hLZ.le]
    have hpayA : ((a * L / ra : ℕ) : ℤ) * ((ra : ℤ) + (a : ℤ))
        / ((L : ℤ) + (a : ℤ) * (L : ℤ) / (ra : ℤ)) ≤ (a : ℤ) := by
      rw [hMcast]
      apply ediv_le_of_le_mul hLtot
      nlinarith [hkey1]
    have hratioPay : (b : ℤ) * (ra : ℤ) = (a : ℤ) * (rb : ℤ) →
        ((a * L / ra : ℕ) : ℤ) * ((rb : ℤ) + (b : ℤ))
          / ((L : ℤ) + (a : ℤ) * (L : ℤ) / (ra : ℤ)) ≤ (b : ℤ) := by
      intro hratZ
      have hkey2 : (a : ℤ) * (L : ℤ) / (ra : ℤ) * (rb : ℤ) ≤ (b : ℤ) * (L : ℤ) := by
        have hstep : (a : ℤ) * (L : ℤ) / (ra : ℤ) * (rb : ℤ) * (ra : ℤ)
            ≤ (b : ℤ) * (L : ℤ) * (ra : ℤ) := by
          nlinarith [mul_le_mul_of_nonneg_right hkey1 hrbZ.le]
        exact le_of_mul_le_mul_right hstep hraZ
      rw [hMcast]
      apply ediv_le_of_le_mul hLtot
      nlinarith [hkey2]
    rcases htok with ⟨hta, htb⟩ | ⟨hta, htb⟩
    · rw [if_pos hta] at hra hrb
      simp only [if_pos hta, hra, hrb, hL] at h3 h4
      simp only [hta, htb] at h4
      generalize hgen : (addLiquidity s u tA tB a b).1 = s1 at h1 h2 h3 h4 ⊢
      have hlp1 : ((a * L / ra : ℕ) : ℤ) ≤ s1.user_balances (liquidityKey u tA tB) := by
        rw [h3, hMcast]
        linarith
      obtain ⟨r0, r1, r2⟩ := remove_liquidity_spec s1 u tA tB (a * L / ra)
        ⟨tA, tB, (ra : ℤ) + (a : ℤ), (rb : ℤ) + (b : ℤ),
          (L : ℤ) + (a : ℤ) * (L : ℤ) / (ra : ℤ)⟩ h4 hLtot hlp1 hgaA hgaB hgl'
        (Ne.symm hBA) hLA hLB
      dsimp only at r1 r2
      refine ⟨h0, r0, ?_, ?_⟩
      · unfold getUserBalance
        rw [r1, h1]
        linarith [hpayA]
      · intro hrat
        have hratZ : (b : ℤ) * (ra : ℤ) = (a : ℤ) * (rb : ℤ) := by exact_mod_cast hrat
        unfold getUserBalance
        rw [r2, h2]
        linarith [hratioPay hratZ]
    · have htne : ¬ pool.token_a = tA := by
        rw [hta]
        intro hcontra
        exact hBA (by rw [hcontra])
      rw [if_neg htne] at hra hrb
      simp only [if_neg htne, hra, hrb, hL] at h3 h4
      simp only [hta, htb] at h4
      generalize hgen : (addLiquidity s u tA tB a b).1 = s1 at h1 h2 h3 h4 ⊢
      have hlp1 : ((a * L / ra : ℕ) : ℤ) ≤ s1.user_balances (liquidityKey u tA tB) := by
        rw [h3, hMcast]
        linarith
      obtain ⟨r0, r1, r2⟩ := remove_liquidity_spec s1 u tA tB (a * L / ra)
        ⟨tB, tA, (rb : ℤ) + (b : ℤ), (ra : ℤ) + (a : ℤ),
          (L : ℤ) + (a : ℤ) * (L : ℤ) / (ra : ℤ)⟩ h4 hLtot hlp1 hgaB hgaA hgl'
        hBA hLB hLA
      dsimp only at r1 r2
      refine ⟨h0, r0, ?_, ?_⟩
      · unfold getUserBalance
        rw [r2, h1]
        linarith [hpayA]
      · intro hrat
        have hratZ : (b : ℤ) * (ra : ℤ) = (a : ℤ) * (rb : ℤ) := by exact_mod_cast hrat
        unfold getUserBalance
        rw [r1, h2]
        linarith [hratioPay hratZ]
  · intro s u tA tB a b ha hb hBA hLA hLB hbalA hbalB hbalLP hpool
    have htne : tB ≠ tA := by
      intro hcontra
      exact hBA (by rw [hcontra])
    have hm1 : 1 ≤ integerSqrt (a * b) :=
      one_le_integerSqrt (Nat.one_le_iff_ne_zero.mpr (Nat.mul_ne_zero ha hb))
    have hmZ : (0 : ℤ) < (integerSqrt (a * b) : ℤ) := by exact_mod_cast hm1
    obtain ⟨h0, h1, h2, h3, h4⟩ := add_liquidity_fresh_spec s u tA tB a b ha hb htne hBA
      hLA hLB hbalA hbalB hpool
    have hexA : (integerSqrt (a * b) : ℤ) * (a : ℤ) / (integerSqrt (a * b) : ℤ) = (a : ℤ) :=
      Int.mul_ediv_cancel_left _ hmZ.ne'
    have hexB : (integerSqrt (a * b) : ℤ) * (b : ℤ) / (integerSqrt (a * b) : ℤ) = (b : ℤ) :=
      Int.mul_ediv_cancel_left _ hmZ.ne'
    cases hst : strLt tB tA with
    | true =>
      simp only [hst, if_pos] at h4
      generalize hgen : (addLiquidity s u tA tB a b).1 = s1 at h1 h2 h3 h4 ⊢
      have hlp1 : ((integerSqrt (a * b) : ℕ) : ℤ) ≤ s1.user_balances (liquidityKey u tA tB) := by
        rw [h3]
        linarith
      obtain ⟨r0, r1, r2⟩ := remove_liquidity_spec s1 u tA tB (integerSqrt (a * b))
        ⟨tB, tA, (b : ℤ), (a : ℤ), (integerSqrt (a * b) : ℤ)⟩ h4 hmZ hlp1
        (le_of_eq hexB) (le_of_eq hexA) (le_refl _) hBA hLB hLA
      dsimp only at r1 r2
      rw [hexB] at r1
      rw [hexA] at r2
      refine ⟨h0, r0, ?_, ?_⟩
      · unfold getUserBalance
        rw [r2, h1]
        ring
      · unfold getUserBalance
        rw [r1, h2]
        ring
    | false =>
      simp only [hst, Bool.false_eq_true, if_false] at h4
      generalize hgen : (addLiquidity s u tA tB a b).1 = s1 at h1 h2 h3 h4 ⊢
      have hlp1 : ((integerSqrt (a * b) : ℕ) : ℤ) ≤ s1.user_balances (liquidityKey u tA tB) := by
        rw [h3]
        linarith
      obtain ⟨r0, r1, r2⟩ := remove_liquidity_spec s1 u tA tB (integerSqrt (a * b))
        ⟨tA, tB, (a : ℤ), (b : ℤ), (integerSqrt (a * b) : ℤ)⟩ h4 hmZ hlp1
        (le_of_eq hexA) (le_of_eq hexB) (le_refl _) (Ne.symm hBA) hLA hLB
      dsimp only at r1 r2
      rw [hexA] at r1
      rw [hexB] at r2
      refine ⟨h0, r0, ?_, ?_⟩
      · unfold getUserBalance
        rw [r1, h1]
        ring
      · unfold getUserBalance
        rw [r2, h2]
        ring

/-- Witness for C4 (amended): a ratio-matched deposit (10, 10) into the
1000/1000 pool and the fresh-pool round-trip both return no more than was
deposited. -/
theorem liquidity_round_trip_amended_witness :
    ((addLiquidity (twoBalanceState ⟨"A", "B", 1000, 1000, 1000⟩ (balanceKey "u" "A") 10
        (balanceKey "u" "B") 10) "u" "A" "B" 10 10).2 = none ∧
      (removeLiquidity (addLiquidity (twoBalanceState ⟨"A", "B", 1000, 1000, 1000⟩
          (balanceKey "u" "A") 10 (balanceKey "u" "B") 10) "u" "A" "B" 10 10).1
          "u" "A" "B" (10 * 1000 / 1000)).2 = none ∧
      getUserBalance (removeLiquidity (addLiquidity (twoBalanceState
          ⟨"A", "B", 1000, 1000, 1000⟩ (balanceKey "u" "A") 10 (balanceKey "u" "B") 10)
          "u" "A" "B" 10 10).1 "u" "A" "B" (10 * 1000 / 1000)).1 "u" "A"
        ≤ getUserBalance (twoBalanceState ⟨"A", "B", 1000, 1000, 1000⟩ (balanceKey "u" "A") 10
          (balanceKey "u" "B") 10) "u" "A" ∧
      getUserBalance (removeLiquidity (addLiquidity (twoBalanceState
          ⟨"A", "B", 1000, 1000, 1000⟩ (balanceKey "u" "A") 10 (balanceKey "u" "B") 10)
          "u" "A" "B" 10 10).1 "u" "A" "B" (10 * 1000 / 1000)).1 "u" "B"
        ≤ getUserBalance (twoBalanceState ⟨"A", "B", 1000, 1000, 1000⟩ (balanceKey "u" "A") 10
          (balanceKey "u" "B") 10) "u" "B") ∧
    (getUserBalance (removeLiquidity (addLiquidity (noPoolState (balanceKey "u" "A") 4
        (balanceKey "u" "B") 9) "u" "A" "B" 4 9).1 "u" "A" "B" (integerSqrt (4 * 9))).1 "u" "A"
      = getUserBalance (noPoolState (balanceKey "u" "A") 4 (balanceKey "u" "B") 9) "u" "A" ∧
    getUserBalance (removeLiquidity (addLiquidity (noPoolState (balanceKey "u" "A") 4
        (balanceKey "u" "B") 9) "u" "A" "B" 4 9).1 "u" "A" "B" (integerSqrt (4 * 9))).1 "u" "B"
      = getUserBalance (noPoolState (balanceKey "u" "A") 4 (balanceKey "u" "B") 9) "u" "B") := by
  constructor
  · have h := liquidity_round_trip_amended.1
      (twoBalanceState ⟨"A", "B", 1000, 1000, 1000⟩ (balanceKey "u" "A") 10
        (balanceKey "u" "B") 10)
      "u" "A" "B" 10 10 1000 1000 1000 ⟨"A", "B", 1000, 1000, 1000⟩ (by decide) (by decide)
      (by decide) (by decide) (by decide) (by decide) (by decide) (by decide) (by decide)
      (by decide) (by decide) (by decide) (by decide) (by decide) (by decide) (by decide)
    exact ⟨h.1, h.2.1, h.2.2.1, h.2.2.2 (by decide)⟩
  · have h := liquidity_round_trip_amended.2
      (noPoolState (balanceKey "u" "A") 4 (balanceKey "u" "B") 9)
      "u" "A" "B" 4 9 (by decide) (by decide) (by decide) (by decide) (by decide) (by decide)
      (by decide) (by decide) (by decide)
    exact ⟨h.2.2.1, h.2.2.2⟩

/-! ## Floor lemmas for the frontend rounding analysis -/

theorem floor_natCast_div (m n : ℕ) : ⌊((m : ℚ) / (n : ℚ))⌋ = ((m / n : ℕ) : ℤ) := by
  rcases Nat.eq_zero_or_pos n with hn | hn
  · subst hn
    simp
  · have hnQ : (0 : ℚ) < (n : ℚ) := by exact_mod_cast hn
    rw [Int.floor_eq_iff]
    constructor
    · rw [le_div_iff hnQ]
      exact_mod_cast Nat.div_mul_le_self m n
    · rw [div_lt_iff hnQ]
      have h1 := Nat.div_add_mod m n
      have h2 := Nat.mod_lt m hn
      have h3 : m < (m / n + 1) * n := by nlinarith
      exact_mod_cast h3

theorem floor_intCast_div_10000 (z : ℤ) : ⌊((z : ℚ) / 10000)⌋ = z / 10000 := by
  rw [Int.floor_eq_iff]
  constructor
  · rw [le_div_iff (by norm_num : (0 : ℚ) < 10000)]
    exact_mod_cast Int.ediv_mul_le z (by norm_num : (10000 : ℤ) ≠ 0)
  · rw [div_lt_iff (by norm_num : (0 : ℚ) < 10000)]
    exact_mod_cast Int.lt_ediv_add_one_mul_self z (by norm_num : (0 : ℤ) < 10000)

theorem parseIntToFixed4_cases (q : ℚ) :
    (Int.fract q < 19999 / 20000 → parseIntOfDecimal (toFixed4 q) = ⌊q⌋) ∧
    (19999 / 20000 ≤ Int.fract q → parseIntOfDecimal (toFixed4 q) = ⌊q⌋ + 1) := by
  have hq' : q = (⌊q⌋ : ℚ) + Int.fract q := (Int.floor_add_fract q).symm
  have hsplit : q * 10000 + 1 / 2
      = (Int.fract q * 10000 + 1 / 2) + ((⌊q⌋ * 10000 : ℤ) : ℚ) := by
    calc q * 10000 + 1 / 2 = ((⌊q⌋ : ℚ) + Int.fract q) * 10000 + 1 / 2 := by rw [← hq']
      _ = (Int.fract q * 10000 + 1 / 2) + ((⌊q⌋ * 10000 : ℤ) : ℚ) := by push_cast; ring
  rw [parseIntOfDecimal, toFixed4, hsplit, Int.floor_add_int]
  constructor
  · intro hfr
    have hr0 : (0 : ℤ) ≤ ⌊Int.fract q * 10000 + 1 / 2⌋ :=
      Int.floor_nonneg.mpr (by nlinarith [Int.fract_nonneg q])
    have hrlt : ⌊Int.fract q * 10000 + 1 / 2⌋ < 10000 :=
      Int.floor_lt.mpr (by push_cast; nlinarith)
    rw [floor_intCast_div_10000,
      Int.add_mul_ediv_right _ _ (by norm_num : (10000 : ℤ) ≠ 0),
      Int.ediv_eq_zero_of_lt hr0 hrlt]
    ring
  · intro hfr
    have hr : ⌊Int.fract q * 10000 + 1 / 2⌋ = 10000 := by
      rw [Int.floor_eq_iff]
      constructor
      · push_cast
        nlinarith
      · push_cast
        nlinarith [Int.fract_lt_one q]
    rw [hr, floor_intCast_div_10000,
      Int.add_mul_ediv_right _ _ (by norm_num : (10000 : ℤ) ≠ 0)]
    norm_num
    omega

/-- Counterexample to C9: on the pool with reserves 20/16448 and amount_in 1
the exact quotient is 16398656/20997 = 780.99995…, `toFixed(4)` rounds it to
"781.0000", and `parseInt` of that string is 781 — one more than the engine's
floor 780, so the submitted `min_amount_out` does not equal the engine's
`amount_out` for all inputs. -/
theorem frontend_min_amount_out_counterexample :
    calculateSwapOutputFromPool (some ⟨"A", "B", 20, 16448⟩) "A" 1 = 16398656 / 20997 ∧
    handlePoolSwapMinAmountOut (some ⟨"A", "B", 20, 16448⟩) "A" 1 = 781 ∧
    ⌊calculateSwapOutputFromPool (some ⟨"A", "B", 20, 16448⟩) "A" 1⌋ = 780 ∧
    ((1 * 997 * 16448 / (20 * 1000 + 1 * 997) : ℕ) : ℤ) = 780 ∧
    (781 : ℤ) ≠ 780 := by
  have hq : calculateSwapOutputFromPool (some ⟨"A", "B", 20, 16448⟩) "A" 1
      = 16398656 / 20997 := by
    norm_num [calculateSwapOutputFromPool]
  have hfl : ⌊(16398656 / 20997 : ℚ)⌋ = 780 := by
    rw [Int.floor_eq_iff]
    norm_num
  have hinner : ⌊(16398656 / 20997 : ℚ) * 10000 + 1 / 2⌋ = 7810000 := by
    rw [Int.floor_eq_iff]
    norm_num
  refine ⟨hq, ?_, ?_, by decide, by decide⟩
  · rw [handlePoolSwapMinAmountOut, hq, toFixed4, hinner, parseIntOfDecimal]
    have : ⌊((7810000 : ℤ) : ℚ) / 10000⌋ = 781 := by
      rw [floor_intCast_div_10000]
      decide
    exact_mod_cast this
  · rw [hq, hfl]

/-- C9 (amended): idealising JavaScript numbers as exact rationals, the
frontend estimate equals the exact unfloored quotient, and the submitted
`min_amount_out` (`parseInt` of the `toFixed(4)` rendering) equals the
engine's floored `amount_out` exactly when the fractional part of the
quotient is below 0.99995; when the fractional part reaches 0.99995 the
rounding carries and the submitted value exceeds the engine's output by
one. -/
theorem frontend_estimate_amended :
    ∀ (tA tB : String) (rin rout ain : ℕ), 0 < rin → 0 < rout → 0 < ain →
      calculateSwapOutputFromPool (some ⟨tA, tB, (rin : ℚ), (rout : ℚ)⟩) tA (ain : ℚ)
        = (ain : ℚ) * 997 * (rout : ℚ) / ((rin : ℚ) * 1000 + (ain : ℚ) * 997) ∧
      (Int.fract ((ain : ℚ) * 997 * (rout : ℚ) / ((rin : ℚ) * 1000 + (ain : ℚ) * 997))
          < 19999 / 20000 →
        handlePoolSwapMinAmountOut (some ⟨tA, tB, (rin : ℚ), (rout : ℚ)⟩) tA (ain : ℚ)
          = ((ain * 997 * rout / (rin * 1000 + ain * 997) : ℕ) : ℤ)) ∧
      (19999 / 20000
          ≤ Int.fract ((ain : ℚ) * 997 * (rout : ℚ) / ((rin : ℚ) * 1000 + (ain : ℚ) * 997)) →
        handlePoolSwapMinAmountOut (some ⟨tA, tB, (rin : ℚ), (rout : ℚ)⟩) tA (ain : ℚ)
          = ((ain * 997 * rout / (rin * 1000 + ain * 997) : ℕ) : ℤ) + 1) := by
  intro tA tB rin rout ain hrin hrout hain
  have hrinQ : (0 : ℚ) < (rin : ℚ) := by exact_mod_cast hrin
  have hroutQ : (0 : ℚ) < (rout : ℚ) := by exact_mod_cast hrout
  have hainQ : (0 : ℚ) < (ain : ℚ) := by exact_mod_cast hain
  have hcond : ¬ ((rin : ℚ) = 0 ∨ (rout : ℚ) = 0 ∨ (ain : ℚ) ≤ 0) := by
    push_neg
    exact ⟨hrinQ.ne', hroutQ.ne', hainQ⟩
  have hq : calculateSwapOutputFromPool (some ⟨tA, tB, (rin : ℚ), (rout : ℚ)⟩) tA (ain : ℚ)
      = (ain : ℚ) * 997 * (rout : ℚ) / ((rin : ℚ) * 1000 + (ain : ℚ) * 997) := by
    simp [calculateSwapOutputFromPool, hcond]
    intro h
    exact absurd h (by omega)
  have hnum : (ain : ℚ) * 997 * (rout : ℚ) = ((ain * 997 * rout : ℕ) : ℚ) := by
    push_cast
    ring
  have hden : (rin : ℚ) * 1000 + (ain : ℚ) * 997 = ((rin * 1000 + ain * 997 : ℕ) : ℚ) := by
    push_cast
    ring
  have hfl : ⌊(ain : ℚ) * 997 * (rout : ℚ) / ((rin : ℚ) * 1000 + (ain : ℚ) * 997)⌋
      = ((ain * 997 * rout / (rin * 1000 + ain * 997) : ℕ) : ℤ) := by
    rw [hnum, hden, floor_natCast_div]
  have hcases := parseIntToFixed4_cases
    ((ain : ℚ) * 997 * (rout : ℚ) / ((rin : ℚ) * 1000 + (ain : ℚ) * 997))
  refine ⟨hq, ?_, ?_⟩
  · intro hfr
    rw [handlePoolSwapMinAmountOut, hq, hcases.1 hfr, hfl]
  · intro hfr
    rw [handlePoolSwapMinAmountOut, hq, hcases.2 hfr, hfl]

/-- Witness for C9 (amended): on the 100000/100000 pool with amount_in 1000
the quotient is 987.157…, its fractional part is below 0.99995, and the
submitted min_amount_out equals the engine's floored output 987. -/
theorem frontend_estimate_amended_witness :
    calculateSwapOutputFromPool (some ⟨"USDC", "ETH", 100000, 100000⟩) "USDC" 1000
      = (1000 : ℚ) * 997 * 100000 / (100000 * 1000 + 1000 * 997) ∧
    handlePoolSwapMinAmountOut (some ⟨"USDC", "ETH", 100000, 100000⟩) "USDC" 1000 = 987 := by
  have h := frontend_estimate_amended "USDC" "ETH" 100000 100000 1000 (by decide) (by decide)
    (by decide)
  have hfl : ⌊((1000 : ℕ) : ℚ) * 997 * ((100000 : ℕ) : ℚ)
      / (((100000 : ℕ) : ℚ) * 1000 + ((1000 : ℕ) : ℚ) * 997)⌋ = 987 := by
    rw [Int.floor_eq_iff]
    push_cast
    norm_num
  have hfr : Int.fract (((1000 : ℕ) : ℚ) * 997 * ((100000 : ℕ) : ℚ)
      / (((100000 : ℕ) : ℚ) * 1000 + ((1000 : ℕ) : ℚ) * 997)) < 19999 / 20000 := by
    rw [← Int.self_sub_floor, hfl]
    push_cast
    norm_num
  constructor
  · have h1 := h.1
    push_cast at h1 ⊢
    exact h1
  · have h2 := h.2.1 hfr
    have hval : ((1000 * 997 * 100000 / (100000 * 1000 + 1000 * 997) : ℕ) : ℤ) = 987 := by
      decide
    rw [hval] at h2
    push_cast at h2 ⊢
    exact h2

/-! ## Preservation of well-formedness -/

theorem debit_wf {b : String → ℤ} {k : String} {a : ℤ} {b' : String → ℤ}
    (h : debit b k a = some b') (hb : ∀ k', 0 ≤ b k') : ∀ k', 0 ≤ b' k' := by
  unfold debit at h
  split at h
  · rename_i hle
    injection h with h
    subst h
    intro k'
    unfold setBal
    split
    · linarith
    · exact hb k'
  · exact absurd h (by simp)

theorem credit_wf {b : String → ℤ} {k : String} {a : ℤ}
    (hb : ∀ k', 0 ≤ b k') (ha : 0 ≤ a) : ∀ k', 0 ≤ credit b k a k' := by
  intro k'
  unfold credit setBal
  split
  · linarith [hb k]
  · exact hb k'

theorem setPool_wf {ps : String → Option LiquidityPool} {key : String}
    {pnew : LiquidityPool} (hps : ∀ k p, ps k = some p → PoolWF p) (hnew : PoolWF pnew) :
    ∀ k p, setPool ps key pnew k = some p → PoolWF p := by
  intro k p hk
  unfold setPool at hk
  split at hk
  · injection hk with hk
    subst hk
    exact hnew
  · exact hps k p hk

theorem mintTokens_wf (s : AmmState) (u t : String) (amt : ℕ) (hWF : StateWF s) :
    StateWF (mintTokens s u t amt).1 := by
  obtain ⟨hbal, hpools⟩ := hWF
  exact ⟨credit_wf hbal (Int.natCast_nonneg amt), hpools⟩

theorem addLiquidity_wf (s : AmmState) (u tA tB : String) (a b : ℕ) (hWF : StateWF s) :
    StateWF (addLiquidity s u tA tB a b).1 := by
  obtain ⟨hbal, hpools⟩ := hWF
  simp only [addLiquidity]
  by_cases hz : a = 0 ∨ b = 0
  · rw [if_pos hz]
    exact ⟨hbal, hpools⟩
  rw [if_neg hz]
  have ha : 1 ≤ a := by omega
  have hb : 1 ≤ b := by omega
  have haZ : (1 : ℤ) ≤ (a : ℤ) := by exact_mod_cast ha
  have hbZ : (1 : ℤ) ≤ (b : ℤ) := by exact_mod_cast hb
  have hsq : 1 ≤ integerSqrt (a * b) :=
    one_le_integerSqrt (Nat.one_le_iff_ne_zero.mpr (by positivity))
  have hsqZ : (1 : ℤ) ≤ (integerSqrt (a * b) : ℤ) := by exact_mod_cast hsq
  rcases hd1 : debit s.user_balances (balanceKey u tA) (a : ℤ) with _ | b1
  · exact ⟨hbal, hpools⟩
  dsimp only
  rcases hd2 : debit b1 (balanceKey u tB) (b : ℤ) with _ | b2
  · exact ⟨hbal, hpools⟩
  dsimp only
  have hb2 : ∀ k', 0 ≤ b2 k' := debit_wf hd2 (debit_wf hd1 hbal)
  rcases hp : s.pools (getPairKey tA tB) with _ | p
  · dsimp only
    have hP0a : (if strLt tB tA = true then (⟨tB, tA, 0, 0, 0⟩ : LiquidityPool)
        else ⟨tA, tB, 0, 0, 0⟩).reserve_a = 0 := by split <;> rfl
    have hP0b : (if strLt tB tA = true then (⟨tB, tA, 0, 0, 0⟩ : LiquidityPool)
        else ⟨tA, tB, 0, 0, 0⟩).reserve_b = 0 := by split <;> rfl
    have hP0L : (if strLt tB tA = true then (⟨tB, tA, 0, 0, 0⟩ : LiquidityPool)
        else ⟨tA, tB, 0, 0, 0⟩).total_liquidity = 0 := by split <;> rfl
    rw [hP0a, hP0b, hP0L, if_pos (⟨rfl, rfl⟩ : (0 : ℤ) = 0 ∧ (0 : ℤ) = 0)]
    refine ⟨credit_wf hb2 (Int.natCast_nonneg _), setPool_wf hpools ?_⟩
    dsimp only [PoolWF]
    split <;>
    · dsimp only
      split <;>
      · dsimp only
        exact ⟨by linarith, by linarith, by linarith,
          by constructor <;> intro hc <;> linarith,
          by constructor <;> intro hc <;> linarith⟩
  · dsimp only
    have hpWF := hpools _ p hp
    obtain ⟨hpa, hpb, hpL, hca, hcb⟩ := hpWF
    by_cases hfresh : p.reserve_a = 0 ∧ p.reserve_b = 0
    · rw [if_pos hfresh]
      have hfa : p.reserve_a = 0 := hfresh.1
      have hfb : p.reserve_b = 0 := hfresh.2
      have hL0 : p.total_liquidity = 0 := hca.mp hfa
      refine ⟨credit_wf hb2 (Int.natCast_nonneg _), setPool_wf hpools ?_⟩
      rw [hfa, hfb, hL0]
      dsimp only [PoolWF]
      split <;>
      · dsimp only
        exact ⟨by linarith, by linarith, by linarith,
          by constructor <;> intro hc <;> linarith,
          by constructor <;> intro hc <;> linarith⟩
    · rw [if_neg hfresh]
      have hL0 : p.total_liquidity ≠ 0 := by
        intro hc
        exact hfresh ⟨hca.mpr hc, hcb.mpr hc⟩
      have hpa' : 0 < p.reserve_a := by
        rcases lt_or_eq_of_le hpa with h | h
        · exact h
        · exact absurd (hca.mp h.symm) hL0
      have hpb' : 0 < p.reserve_b := by
        rcases lt_or_eq_of_le hpb with h | h
        · exact h
        · exact absurd (hcb.mp h.symm) hL0
      have hpL' : 0 < p.total_liquidity := lt_of_le_of_ne hpL (Ne.symm hL0)
      have hminted : 0 ≤ (a : ℤ) * p.total_liquidity
          / (if p.token_a = tA then p.reserve_a else p.reserve_b) := by
        apply Int.ediv_nonneg (by positivity)
        split <;> linarith
      refine ⟨credit_wf hb2 hminted, setPool_wf hpools ?_⟩
      dsimp only [PoolWF]
      split <;> rename_i hta
      · rw [if_pos hta] at hminted
        dsimp only
        exact ⟨by linarith, by linarith, by linarith,
          by constructor <;> intro hc <;> linarith,
          by constructor <;> intro hc <;> linarith⟩
      · rw [if_neg hta] at hminted
        dsimp only
        exact ⟨by linarith, by linarith, by linarith,
          by constructor <;> intro hc <;> linarith,
          by constructor <;> intro hc <;> linarith⟩

theorem removeLiquidity_wf (s : AmmState) (u tA tB : String) (l : ℕ) (hWF : StateWF s) :
    StateWF (removeLiquidity s u tA tB l).1 := by
  obtain ⟨hbal, hpools⟩ := hWF
  simp only [removeLiquidity]
  rcases hp : s.pools (getPairKey tA tB) with _ | p
  · exact ⟨hbal, hpools⟩
  dsimp only
  by_cases hLle : p.total_liquidity ≤ 0
  · rw [if_pos hLle]
    exact ⟨hbal, hpools⟩
  rw [if_neg hLle]
  have hLpos : 0 < p.total_liquidity := not_le.mp hLle
  rcases hd : debit s.user_balances (liquidityKey u tA tB) (l : ℤ) with _ | b1
  · exact ⟨hbal, hpools⟩
  dsimp only
  have hb1 := debit_wf hd hbal
  have hpWF := hpools _ p hp
  obtain ⟨hpa, hpb, hpL, hca, hcb⟩ := hpWF
  have hra0 : 0 < p.reserve_a := by
    rcases lt_or_eq_of_le hpa with h | h
    · exact h
    · rw [hca.mp h.symm] at hLpos
      exact absurd hLpos (by omega)
  have hrb0 : 0 < p.reserve_b := by
    rcases lt_or_eq_of_le hpb with h | h
    · exact h
    · rw [hcb.mp h.symm] at hLpos
      exact absurd hLpos (by omega)
  have hlZ : (0 : ℤ) ≤ (l : ℤ) := Int.natCast_nonneg l
  by_cases hg : (l : ℤ) * p.reserve_a / p.total_liquidity ≤ p.reserve_a ∧
      (l : ℤ) * p.reserve_b / p.total_liquidity ≤ p.reserve_b ∧
      (l : ℤ) ≤ p.total_liquidity
  · rw [if_pos hg]
    obtain ⟨hga, hgb, hgl⟩ := hg
    have hA0 : 0 ≤ (l : ℤ) * p.reserve_a / p.total_liquidity :=
      Int.ediv_nonneg (by positivity) hpL
    have hB0 : 0 ≤ (l : ℤ) * p.reserve_b / p.total_liquidity :=
      Int.ediv_nonneg (by positivity) hpL
    refine ⟨credit_wf (credit_wf hb1 hA0) hB0, setPool_wf hpools ?_⟩
    rcases eq_or_lt_of_le hgl with heq | hlt
    · have hpayA : (l : ℤ) * p.reserve_a / p.total_liquidity = p.reserve_a := by
        rw [heq]
        exact Int.mul_ediv_cancel_left _ (by omega)
      have hpayB : (l : ℤ) * p.reserve_b / p.total_liquidity = p.reserve_b := by
        rw [heq]
        exact Int.mul_ediv_cancel_left _ (by omega)
      dsimp only [PoolWF]
      rw [hpayA, hpayB, ← heq]
      exact ⟨by linarith, by linarith, by linarith,
        by constructor <;> intro hc <;> linarith,
        by constructor <;> intro hc <;> linarith⟩
    · have hpayA : (l : ℤ) * p.reserve_a / p.total_liquidity < p.reserve_a := by
        rw [Int.ediv_lt_iff_lt_mul hLpos]
        nlinarith
      have hpayB : (l : ℤ) * p.reserve_b / p.total_liquidity < p.reserve_b := by
        rw [Int.ediv_lt_iff_lt_mul hLpos]
        nlinarith
      dsimp only [PoolWF]
      exact ⟨by linarith, by linarith, by linarith,
        by constructor <;> intro hc <;> linarith,
        by constructor <;> intro hc <;> linarith⟩
  · rw [if_neg hg]
    exact ⟨hbal, hpools⟩

theorem swapTokens_wf (s : AmmState) (u tin tout : String) (ain minOut : ℕ)
    (hWF : StateWF s) :
    StateWF (swapExactTokensForTokens s u tin tout ain minOut).1 := by
  obtain ⟨hbal, hpools⟩ := hWF
  simp only [swapExactTokensForTokens]
  rcases hp : s.pools (getPairKey tin tout) with _ | p
  · exact ⟨hbal, hpools⟩
  dsimp only
  by_cases hz : p.reserve_a = 0 ∨ p.reserve_b = 0
  · rw [if_pos hz]
    exact ⟨hbal, hpools⟩
  rw [if_neg hz]
  rcases hd : debit s.user_balances (balanceKey u tin) (ain : ℤ) with _ | b1
  · exact ⟨hbal, hpools⟩
  dsimp only
  have hb1 := debit_wf hd hbal
  have hpWF := hpools _ p hp
  obtain ⟨hpa, hpb, hpL, hca, hcb⟩ := hpWF
  push_neg at hz
  have hra0 : 0 < p.reserve_a := lt_of_le_of_ne hpa (Ne.symm hz.1)
  have hrb0 : 0 < p.reserve_b := lt_of_le_of_ne hpb (Ne.symm hz.2)
  have hL0 : 0 < p.total_liquidity := by
    rcases lt_or_eq_of_le hpL with h | h
    · exact h
    · rw [hca.mpr h.symm] at hra0
      exact absurd hra0 (by omega)
  have hainZ : (0 : ℤ) ≤ (ain : ℤ) := Int.natCast_nonneg ain
  by_cases hta : p.token_a = tin
  · simp only [if_pos hta]
    have haout0 : 0 ≤ (ain : ℤ) * 997 * p.reserve_b
        / (p.reserve_a * 1000 + (ain : ℤ) * 997) := by
      apply Int.ediv_nonneg (by positivity)
      nlinarith
    have haoutlt : (ain : ℤ) * 997 * p.reserve_b
        / (p.reserve_a * 1000 + (ain : ℤ) * 997) < p.reserve_b := by
      rw [Int.ediv_lt_iff_lt_mul (by nlinarith)]
      nlinarith
    by_cases hslip : (ain : ℤ) * 997 * p.reserve_b
        / (p.reserve_a * 1000 + (ain : ℤ) * 997) < (minOut : ℤ)
    · rw [if_pos hslip]
      exact ⟨hbal, hpools⟩
    rw [if_neg hslip, if_pos haoutlt.le]
    refine ⟨credit_wf hb1 haout0, setPool_wf hpools ?_⟩
    dsimp only [PoolWF]
    exact ⟨by linarith, by linarith, by linarith,
      by constructor <;> intro hc <;> linarith,
      by constructor <;> intro hc <;> linarith⟩
  · simp only [if_neg hta]
    have haout0 : 0 ≤ (ain : ℤ) * 997 * p.reserve_a
        / (p.reserve_b * 1000 + (ain : ℤ) * 997) := by
      apply Int.ediv_nonneg (by positivity)
      nlinarith
    have haoutlt : (ain : ℤ) * 997 * p.reserve_a
        / (p.reserve_b * 1000 + (ain : ℤ) * 997) < p.reserve_a := by
      rw [Int.ediv_lt_iff_lt_mul (by nlinarith)]
      nlinarith
    by_cases hslip : (ain : ℤ) * 997 * p.reserve_a
        / (p.reserve_b * 1000 + (ain : ℤ) * 997) < (minOut : ℤ)
    · rw [if_pos hslip]
      exact ⟨hbal, hpools⟩
    rw [if_neg hslip, if_pos haoutlt.le]
    refine ⟨credit_wf hb1 haout0, setPool_wf hpools ?_⟩
    dsimp only [PoolWF]
    exact ⟨by linarith, by linarith, by linarith,
      by constructor <;> intro hc <;> linarith,
      by constructor <;> intro hc <;> linarith⟩

theorem stepState_wf (s : AmmState) (a : AmmAction) (hWF : StateWF s) :
    StateWF (stepState s a) := by
  cases a with
  | mintTokens u t amt => exact mintTokens_wf s u t amt hWF
  | addLiquidity u tA tB x y => exact addLiquidity_wf s u tA tB x y hWF
  | removeLiquidity u tA tB l => exact removeLiquidity_wf s u tA tB l hWF
  | swapExactTokensForTokens u tin tout ain mo => exact swapTokens_wf s u tin tout ain mo hWF

theorem runActions_wf (acts : List AmmAction) :
    ∀ s : AmmState, StateWF s → StateWF (runActions s acts) := by
  induction acts with
  | nil => exact fun s h => h
  | cons a rest ih => exact fun s h => ih (stepState s a) (stepState_wf s a h)

theorem emptyState_wf : StateWF emptyState :=
  ⟨fun _ => le_refl 0, fun _ p hp => by simp [emptyState] at hp⟩

/-- C6: in every state reachable from the empty state, every pool satisfies
the zero-coupling invariant — its two reserves and its total liquidity are
all zero or all non-zero. -/
theorem pool_zero_coupling (acts : List AmmAction) (k : String) (p : LiquidityPool)
    (hp : (runActions emptyState acts).pools k = some p) :
    (p.reserve_a = 0 ↔ p.reserve_b = 0) ∧ (p.reserve_a = 0 ↔ p.total_liquidity = 0) := by
  have h := (runActions_wf acts emptyState emptyState_wf).2 k p hp
  exact ⟨h.2.2.2.1.trans h.2.2.2.2.symm, h.2.2.2.1⟩

/-- Witness for C6: after minting 4 of A and 9 of B and bootstrapping the A/B
pool with them (6 = floor(sqrt(36)) shares), the stored pool is (4, 9, 6) and
the coupling equivalences hold at it. -/
theorem pool_zero_coupling_witness :
    (((4 : ℤ) = 0 ↔ (9 : ℤ) = 0) ∧ ((4 : ℤ) = 0 ↔ (6 : ℤ) = 0)) :=
  pool_zero_coupling
    [.mintTokens "u" "A" 4, .mintTokens "u" "B" 9, .addLiquidity "u" "A" "B" 4 9]
    (getPairKey "A" "B") ⟨"A", "B", 4, 9, 6⟩ (by decide)

/-- C7: starting from the empty state no tracked balance — token balance or
LP-share balance — ever becomes negative under any sequence of operations,
and a debit whose sufficiency check fails (AddLiquidity, RemoveLiquidity or
swap asked for more than the tracked balance) returns `insufficientBalance`
with the state unchanged. -/
theorem balances_never_negative :
    (∀ (acts : List AmmAction) (k : String),
      0 ≤ (runActions emptyState acts).user_balances k) ∧
    (∀ (s : AmmState) (u tA tB : String) (a b : ℕ),
      a ≠ 0 → b ≠ 0 →
      s.user_balances (balanceKey u tA) < (a : ℤ) →
      addLiquidity s u tA tB a b = (s, some .insufficientBalance)) ∧
    (∀ (s : AmmState) (u tA tB : String) (l : ℕ) (pool : LiquidityPool),
      s.pools (getPairKey tA tB) = some pool →
      0 < pool.total_liquidity →
      s.user_balances (liquidityKey u tA tB) < (l : ℤ) →
      removeLiquidity s u tA tB l = (s, some .insufficientBalance)) ∧
    (∀ (s : AmmState) (u tin tout : String) (ain mo : ℕ) (pool : LiquidityPool),
      s.pools (getPairKey tin tout) = some pool →
      pool.reserve_a ≠ 0 → pool.reserve_b ≠ 0 →
      s.user_balances (balanceKey u tin) < (ain : ℤ) →
      swapExactTokensForTokens s u tin tout ain mo = (s, some .insufficientBalance)) := by
  refine ⟨?_, ?_, ?_, ?_⟩
  · intro acts k
    exact (runActions_wf acts emptyState emptyState_wf).1 k
  · intro s u tA tB a b ha hb hlow
    have hz : ¬ (a = 0 ∨ b = 0) := by omega
    simp only [addLiquidity, if_neg hz, debit_eq_none (not_le.mpr hlow)]
  · intro s u tA tB l pool hpool hLpos hlow
    simp only [removeLiquidity, hpool, if_neg (not_le.mpr hLpos),
      debit_eq_none (not_le.mpr hlow)]
  · intro s u tin tout ain mo pool hpool ha hb hlow
    have hz : ¬ (pool.reserve_a = 0 ∨ pool.reserve_b = 0) := by
      push_neg
      exact ⟨ha, hb⟩
    simp only [swapExactTokensForTokens, hpool, if_neg hz,
      debit_eq_none (not_le.mpr hlow)]

/-- Witness for C7: a zero-balance user asking AddLiquidity for 5/5, a
RemoveLiquidity burn of 5 shares with no LP balance, and a swap of 5 with no
token balance all fail with `insufficientBalance` leaving the state intact. -/
theorem balances_never_negative_witness :
    addLiquidity (singlePoolState ⟨"A", "B", 2, 3, 2⟩ (liquidityKey "u" "A" "B") 0)
        "u" "A" "B" 5 5
      = (singlePoolState ⟨"A", "B", 2, 3, 2⟩ (liquidityKey "u" "A" "B") 0,
          some .insufficientBalance) ∧
    removeLiquidity (singlePoolState ⟨"A", "B", 2, 3, 2⟩ (liquidityKey "u" "A" "B") 0)
        "u" "A" "B" 5
      = (singlePoolState ⟨"A", "B", 2, 3, 2⟩ (liquidityKey "u" "A" "B") 0,
          some .insufficientBalance) ∧
    swapExactTokensForTokens (singlePoolState ⟨"A", "B", 2, 3, 2⟩ (liquidityKey "u" "A" "B") 0)
        "u" "A" "B" 5 0
      = (singlePoolState ⟨"A", "B", 2, 3, 2⟩ (liquidityKey "u" "A" "B") 0,
          some .insufficientBalance) := by
  refine ⟨?_, ?_, ?_⟩
  · exact balances_never_negative.2.1
      (singlePoolState ⟨"A", "B", 2, 3, 2⟩ (liquidityKey "u" "A" "B") 0) "u" "A" "B" 5 5
      (by decide) (by decide) (by decide)
  · exact balances_never_negative.2.2.1
      (singlePoolState ⟨"A", "B", 2, 3, 2⟩ (liquidityKey "u" "A" "B") 0) "u" "A" "B" 5
      ⟨"A", "B", 2, 3, 2⟩ (by decide) (by decide) (by decide)
  · exact balances_never_negative.2.2.2
      (singlePoolState ⟨"A", "B", 2, 3, 2⟩ (liquidityKey "u" "A" "B") 0) "u" "A" "B" 5 0
      ⟨"A", "B", 2, 3, 2⟩ (by decide) (by decide) (by decide) (by decide)

end HyliAmm
